import Mathlib

/-!
Verification of the jigsaw piece-matching and placement engine of the
mobilejig repository, as implemented in
`src/components/PuzzleGame.tsx` and `src/components/MobilePuzzleGame.tsx`
(the two files contain the same engine; the mobile variant generalises the
square `gridSize` to independent `rows`/`cols` and adds a
`regular`/`irregular` piece-shape mode).

The TypeScript engine is shallowly embedded: pieces, the grid and the move
log become Lean structures, the event handlers (`handleGridCellDrop`,
`handleRemoveSelected`, `handlePieceRotate`, `handleUndo`) become pure state
transformers, and the two `Math.random()`-driven choices of the generator
are abstracted as oracles indexed by the call site.
-/

/-- Edge kind of one side of a puzzle piece: `'flat' | 'tab' | 'blank'`
(interface `PuzzleEdge` in PuzzleGame.tsx). -/
inductive EdgeType where
  | flat
  | tab
  | blank
deriving DecidableEq, Repr, Fintype

/-- The four edges of a piece, `originalEdges : \x7b top, right, bottom, left \x7d`. -/
structure Edges where
  top : EdgeType
  right : EdgeType
  bottom : EdgeType
  left : EdgeType
deriving DecidableEq, Repr

/-- A grid coordinate `\x7b row, col \x7d`. -/
structure Pos where
  row : Nat
  col : Nat
deriving DecidableEq, Repr

/-- A puzzle piece (interface `GamePiece`): `position` is the home cell
assigned at generation, `rotation` is in degrees (always a multiple of 90),
`currentGridPosition` is `none` while the piece sits in the unplaced pool. -/
structure GamePiece where
  id : Nat
  position : Pos
  rotation : Nat
  originalEdges : Edges
  currentGridPosition : Option Pos
deriving DecidableEq, Repr

/-- One of the four compass directions used for adjacency checking. -/
inductive Dir where
  | top
  | right
  | bottom
  | left
deriving DecidableEq, Repr, Fintype

/-- The `oppositeDirection` table inside `canConnect`. -/
def oppositeDirection : Dir → Dir
  | .top => .bottom
  | .right => .left
  | .bottom => .top
  | .left => .right

/-- Field access `edges[direction]` on an `originalEdges` record. -/
def Edges.get (e : Edges) : Dir → EdgeType
  | .top => e.top
  | .right => e.right
  | .bottom => e.bottom
  | .left => e.left

/-- `rotateEdges(edges, rotations)` from PuzzlePiece.tsx: rotate the edge
record counter-clockwise by `rotations` quarter turns.  The source
normalises with `((rotations % 4) + 4) % 4`; on natural numbers this equals
`rotations % 4` and is kept verbatim. -/
def rotateEdges (edges : Edges) (rotations : Nat) : Edges :=
  let normalizedRotations := ((rotations % 4) + 4) % 4
  match normalizedRotations with
  | 1 => { top := edges.right, right := edges.bottom, bottom := edges.left, left := edges.top }
  | 2 => { top := edges.bottom, right := edges.left, bottom := edges.top, left := edges.right }
  | 3 => { top := edges.left, right := edges.top, bottom := edges.right, left := edges.bottom }
  | _ => edges

/-- The edge-compatibility rule inlined at the end of `canConnect`
(PuzzleGame.tsx lines 217-221): flat joins flat, tab joins blank,
blank joins tab, nothing else connects. -/
def edgeConnects (edge1 edge2 : EdgeType) : Bool :=
  if edge1 = .flat ∧ edge2 = .flat then true
  else if edge1 = .tab ∧ edge2 = .blank then true
  else if edge1 = .blank ∧ edge2 = .tab then true
  else false

/-- `canConnect(piece1, piece2, direction)`: compare the two pieces'
effective edges (original edges rotated by `rotation / 90` quarter turns):
piece1's edge in `direction` against piece2's edge in the opposite
direction. -/
def canConnect (piece1 piece2 : GamePiece) (direction : Dir) : Bool :=
  let rotationSteps1 := piece1.rotation / 90
  let rotationSteps2 := piece2.rotation / 90
  let actualEdges1 := rotateEdges piece1.originalEdges rotationSteps1
  let actualEdges2 := rotateEdges piece2.originalEdges rotationSteps2
  let edge1 := actualEdges1.get direction
  let edge2 := actualEdges2.get (oppositeDirection direction)
  edgeConnects edge1 edge2

/-- `getRotatedPosition(originalPos, rotation, rows, cols)` (mobile
signature; the desktop version is the special case `rows = cols =
gridSize`): where the home cell lands after rotating the whole board by the
piece's rotation.  The source normalises with `((rotation % 360) + 360) %
360`, kept verbatim (on naturals it equals `rotation % 360`). -/
def getRotatedPosition (originalPos : Pos) (rotation : Nat) (rows cols : Nat) : Pos :=
  let normalizedRotation := ((rotation % 360) + 360) % 360
  match normalizedRotation with
  | 90 => { row := originalPos.col, col := rows - 1 - originalPos.row }
  | 180 => { row := rows - 1 - originalPos.row, col := cols - 1 - originalPos.col }
  | 270 => { row := cols - 1 - originalPos.col, col := originalPos.row }
  | _ => { row := originalPos.row, col := originalPos.col }

/-- The grid `puzzleGrid : (GamePiece | null)[][]`, modelled as a total
function from coordinates to an optional stored piece (the source stores a
reference to the piece object as it was at placement time). -/
def Grid : Type := Nat → Nat → Option GamePiece

/-- Assignment `grid[r][c] = v` on the functional grid. -/
def updateGrid (g : Grid) (r c : Nat) (v : Option GamePiece) : Grid :=
  fun r' c' => if r' = r ∧ c' = c then v else g r' c'

/-- The `directions` array inside `canPlacePiece`: row delta, col delta and
the corresponding direction name. -/
def placementDirections : List (Int × Int × Dir) :=
  [(-1, 0, .top), (0, 1, .right), (1, 0, .bottom), (0, -1, .left)]

/-- `canPlacePiece(piece, gridRow, gridCol)`: the target must equal the
rotated home position, and every occupied in-bounds neighbour must pass
`canConnect` on the shared edge. -/
def canPlacePiece (rows cols : Nat) (grid : Grid) (piece : GamePiece)
    (gridRow gridCol : Nat) : Bool :=
  let rotatedPosition := getRotatedPosition piece.position piece.rotation rows cols
  if rotatedPosition.row = gridRow ∧ rotatedPosition.col = gridCol then
    placementDirections.all fun dd =>
      let adjacentRow : Int := (gridRow : Int) + dd.1
      let adjacentCol : Int := (gridCol : Int) + dd.2.1
      if 0 ≤ adjacentRow ∧ adjacentRow < (rows : Int) ∧
          0 ≤ adjacentCol ∧ adjacentCol < (cols : Int) then
        match grid adjacentRow.toNat adjacentCol.toNat with
        | some adjacentPiece => canConnect piece adjacentPiece dd.2.2
        | none => true
      else true
  else false

/-- The completion test run after each drop: every piece has a
`currentGridPosition` and passes `canPlacePiece` there. -/
def allCorrectlyPlaced (rows cols : Nat) (grid : Grid) (pieces : List GamePiece) : Bool :=
  pieces.all fun p =>
    match p.currentGridPosition with
    | none => false
    | some pos => canPlacePiece rows cols grid p pos.row pos.col

/-- A `MoveHistory` record; the source uses one record type with optional
fields discriminated by `type`, modelled as a sum. -/
inductive Move where
  | place (pieceId : Nat) (source : Option Pos) (target : Pos)
  | remove (pieceId : Nat) (source : Pos)
  | rotate (pieceId : Nat) (oldRotation newRotation : Nat)
deriving DecidableEq, Repr

/-- The engine-relevant component state of `PuzzleGame`:
piece array, grid, move counter, move log, the `gameCompleted` flag and a
counter of `onComplete` callback invocations. -/
structure GameState where
  pieces : List GamePiece
  puzzleGrid : Grid
  moves : Nat
  moveHistory : List Move
  gameCompleted : Bool
  completions : Nat

/-- A fresh game: the given piece set, an empty grid, zero moves and an
empty move log. -/
def initState (ps : List GamePiece) : GameState :=
  { pieces := ps
    puzzleGrid := fun _ _ => none
    moves := 0
    moveHistory := []
    gameCompleted := false
    completions := 0 }

/-- `handleGridCellDrop(e, gridRow, gridCol)` with the dragged piece id:
no-op when the id is unknown or the target cell is occupied; otherwise the
piece leaves its previous cell (if any), its pre-update object is stored at
the target, the piece array is updated, a `place` record is appended and
the move counter incremented.  The completion check then evaluates the
updated piece array against the grid captured by the handler's closure,
i.e. the grid from before this drop, and on success sets `gameCompleted`
and invokes the `onComplete` callback (counted in `completions`) without
consulting the previous value of `gameCompleted`. -/
def handleGridCellDrop (rows cols : Nat) (s : GameState)
    (pieceId gridRow gridCol : Nat) : GameState :=
  match s.pieces.find? (fun p => p.id = pieceId) with
  | none => s
  | some piece =>
    if (s.puzzleGrid gridRow gridCol).isSome then s
    else
      let g1 :=
        match piece.currentGridPosition with
        | some cp => updateGrid s.puzzleGrid cp.row cp.col none
        | none => s.puzzleGrid
      let newGrid := updateGrid g1 gridRow gridCol (some piece)
      let oldPosition := piece.currentGridPosition
      let newPieces := s.pieces.map fun p =>
        if p.id = pieceId then { p with currentGridPosition := some ⟨gridRow, gridCol⟩ } else p
      let complete := allCorrectlyPlaced rows cols s.puzzleGrid newPieces
      { pieces := newPieces
        puzzleGrid := newGrid
        moves := s.moves + 1
        moveHistory := s.moveHistory ++ [Move.place pieceId oldPosition ⟨gridRow, gridCol⟩]
        gameCompleted := if complete then true else s.gameCompleted
        completions := if complete then s.completions + 1 else s.completions }

/-- `handleRemoveSelected` with `selectedPiece = pieceId`: no-op when the
id is unknown or the piece is unplaced; otherwise its cell is cleared, its
`currentGridPosition` unset, a `remove` record appended and the move
counter incremented. -/
def handleRemoveSelected (s : GameState) (pieceId : Nat) : GameState :=
  match s.pieces.find? (fun p => p.id = pieceId) with
  | none => s
  | some piece =>
    match piece.currentGridPosition with
    | none => s
    | some gridPos =>
      { s with
        pieces := s.pieces.map fun p =>
          if p.id = pieceId then { p with currentGridPosition := none } else p
        puzzleGrid := updateGrid s.puzzleGrid gridPos.row gridPos.col none
        moves := s.moves + 1
        moveHistory := s.moveHistory ++ [Move.remove pieceId gridPos] }

/-- `handlePieceRotate(pieceId)`: each matching piece turns counter-clockwise,
`(rotation - 90 + 360) % 360` (equal to `(rotation + 270) % 360` on
naturals), a `rotate` record is appended per match (recorded inside the
`map` callback in the source), and the move counter is incremented even
when the id matches nothing. -/
def handlePieceRotate (s : GameState) (pieceId : Nat) : GameState :=
  { s with
    pieces := s.pieces.map fun p =>
      if p.id = pieceId then { p with rotation := (p.rotation + 270) % 360 } else p
    moveHistory := s.moveHistory ++
      (s.pieces.filter (fun p => p.id = pieceId)).map
        (fun p => Move.rotate pieceId p.rotation ((p.rotation + 270) % 360))
    moves := s.moves + 1 }

/-- `newPieces[pieceIndex] = v` after `pieceIndex = findIndex(id)`:
replace the first list entry carrying `pieceId`. -/
def setFirstById : List GamePiece → Nat → GamePiece → List GamePiece
  | [], _, _ => []
  | p :: rest, pieceId, v =>
    if p.id = pieceId then v :: rest else p :: setFirstById rest pieceId v

/-- `handleUndo()`: no-op on an empty log; otherwise pop the last record
and reverse it — a `place` clears the target cell and restores the prior
position (or unplaced), a `remove` restores the piece to its cell, a
`rotate` restores `oldRotation`.  Every non-empty undo increments the move
counter. -/
def handleUndo (s : GameState) : GameState :=
  match s.moveHistory.getLast? with
  | none => s
  | some lastMove =>
    match lastMove with
    | .place pieceId source target =>
      let g1 := updateGrid s.puzzleGrid target.row target.col none
      match s.pieces.find? (fun p => p.id = pieceId) with
      | none =>
        { s with
          puzzleGrid := g1
          moveHistory := s.moveHistory.dropLast
          moves := s.moves + 1 }
      | some piece =>
        let updated := { piece with currentGridPosition := source }
        let g2 :=
          match source with
          | some f => updateGrid g1 f.row f.col (some updated)
          | none => g1
        { s with
          pieces := setFirstById s.pieces pieceId updated
          puzzleGrid := g2
          moveHistory := s.moveHistory.dropLast
          moves := s.moves + 1 }
    | .remove pieceId source =>
      match s.pieces.find? (fun p => p.id = pieceId) with
      | none =>
        { s with
          moveHistory := s.moveHistory.dropLast
          moves := s.moves + 1 }
      | some piece =>
        let updated := { piece with currentGridPosition := some source }
        { s with
          pieces := setFirstById s.pieces pieceId updated
          puzzleGrid := updateGrid s.puzzleGrid source.row source.col (some updated)
          moveHistory := s.moveHistory.dropLast
          moves := s.moves + 1 }
    | .rotate pieceId oldRotation _ =>
      { s with
        pieces := s.pieces.map fun p =>
          if p.id = pieceId then { p with rotation := oldRotation } else p
        moveHistory := s.moveHistory.dropLast
        moves := s.moves + 1 }

/-- Difficulty levels of the desktop game. -/
inductive Difficulty where
  | easy
  | medium
  | hard
deriving DecidableEq, Repr

/-- `\x7b easy: 1, medium: 1.5, hard: 2 \x7d[difficulty]`. -/
def difficultyMultiplier : Difficulty → ℚ
  | .easy => 1
  | .medium => 3 / 2
  | .hard => 2

/-- `calculateScore(moves, timeElapsed, difficulty)`: base 1000, a time
bonus decaying from 300, a move bonus of 10 per move under `2·gridSize²`,
scaled by the difficulty multiplier and floored.  All intermediate values
are small integers or integer multiples of 1/2, exact in the source's
binary floating point, so rational arithmetic is a faithful model. -/
def calculateScore (gridSize moves timeElapsed : Nat) (difficulty : Difficulty) : ℤ :=
  let baseScore : ℚ := 1000
  let timeBonus : ℚ := max 0 (300 - (timeElapsed : ℚ))
  let moveBonus : ℚ := max 0 (((gridSize : ℚ) * gridSize * 2 - (moves : ℚ)) * 10)
  ⌊(baseScore + timeBonus + moveBonus) * difficultyMultiplier difficulty⌋

/-- Piece-shape mode of the mobile generator. -/
inductive PieceShape where
  | regular
  | irregular
deriving DecidableEq, Repr

/-- `Math.random() > 0.5 ? tab : blank`. -/
def coinEdge (b : Bool) : EdgeType :=
  if b then .tab else .blank

/-- Placeholder used for the (never taken) out-of-range list read in the
generator loop. -/
def defaultGamePiece : GamePiece :=
  { id := 0
    position := ⟨0, 0⟩
    rotation := 0
    originalEdges := ⟨.flat, .flat, .flat, .flat⟩
    currentGridPosition := none }

/-- `generatePuzzlePieces(rows, cols, pieceShape)` (mobile signature; the
desktop version is `rows = cols = gridSize` with shape fixed to
`irregular`).  Each `Math.random()` call is modelled by an oracle indexed
by its call site: `coin row col slot` is the boolean `Math.random() > 0.5`
for edge slot 0..3 of the piece at home `(row, col)`, and `rotDraw row col`
is `Math.floor(Math.random() * 4)`.  Since every theorem below quantifies
over all oracles, this covers every behaviour of the sequential random
stream.  The final `pieces.sort(() => Math.random() - 0.5)` produces an
implementation-dependent permutation of this list, so the theorems about
the generator quantify over arbitrary permutations of the result. -/
def generateStep (rows cols : Nat) (pieceShape : PieceShape)
    (coin : Nat → Nat → Nat → Bool) (rotDraw : Nat → Nat → Fin 4)
    (pieces : List GamePiece) (idx : Nat) : List GamePiece :=
  let row := idx / cols
  let col := idx % cols
  let baseEdges : Edges :=
    match pieceShape with
    | .regular => ⟨.flat, .flat, .flat, .flat⟩
    | .irregular =>
      { top := if row = 0 then .flat else coinEdge (coin row col 0)
        right := if col = cols - 1 then .flat else coinEdge (coin row col 1)
        bottom := if row = rows - 1 then .flat else coinEdge (coin row col 2)
        left := if col = 0 then .flat else coinEdge (coin row col 3) }
  let withTop :=
    if pieceShape = .irregular ∧ 0 < row then
      let topPiece := pieces.getD ((row - 1) * cols + col) defaultGamePiece
      { baseEdges with
        top := if topPiece.originalEdges.bottom = .tab then .blank else .tab }
    else baseEdges
  let withLeft :=
    if pieceShape = .irregular ∧ 0 < col then
      let leftPiece := pieces.getD (row * cols + (col - 1)) defaultGamePiece
      { withTop with
        left := if leftPiece.originalEdges.right = .tab then .blank else .tab }
    else withTop
  pieces ++ [{ id := row * cols + col
               position := ⟨row, col⟩
               rotation := (rotDraw row col).val * 90
               originalEdges := withLeft
               currentGridPosition := none }]

def generatePuzzlePieces (rows cols : Nat) (pieceShape : PieceShape)
    (coin : Nat → Nat → Nat → Bool) (rotDraw : Nat → Nat → Fin 4) : List GamePiece :=
  (List.range (rows * cols)).foldl (generateStep rows cols pieceShape coin rotDraw) []

/-- The set of cells of an R×C grid. -/
def gridCells (rows cols : Nat) : Set Pos :=
  { p | p.row < rows ∧ p.col < cols }

@[simp]
lemma mem_gridCells (p : Pos) (rows cols : Nat) :
    p ∈ gridCells rows cols ↔ p.row < rows ∧ p.col < cols :=
  Iff.rfl

lemma getRotatedPosition_zero (p : Pos) (rows cols : Nat) :
    getRotatedPosition p 0 rows cols = p :=
  rfl

lemma getRotatedPosition_90 (p : Pos) (rows cols : Nat) :
    getRotatedPosition p 90 rows cols = ⟨p.col, rows - 1 - p.row⟩ :=
  rfl

lemma getRotatedPosition_180 (p : Pos) (rows cols : Nat) :
    getRotatedPosition p 180 rows cols = ⟨rows - 1 - p.row, cols - 1 - p.col⟩ :=
  rfl

lemma getRotatedPosition_270 (p : Pos) (rows cols : Nat) :
    getRotatedPosition p 270 rows cols = ⟨cols - 1 - p.col, p.row⟩ :=
  rfl

/-- Claim C7: for all pairs of edge kinds, the connection test on two
opposing effective edges returns true exactly for flat–flat, tab–blank and
blank–tab, and false for the six other combinations; and `canConnect`
applies exactly this rule to the two pieces' effective edges (original
edges rotated by `rotation / 90` steps) in the direction and its
opposite. -/
theorem c7_connection_rule :
    (∀ edge1 edge2 : EdgeType,
      edgeConnects edge1 edge2 = true ↔
        (edge1 = .flat ∧ edge2 = .flat) ∨ (edge1 = .tab ∧ edge2 = .blank) ∨
          (edge1 = .blank ∧ edge2 = .tab)) ∧
    (∀ (piece1 piece2 : GamePiece) (direction : Dir),
      canConnect piece1 piece2 direction =
        edgeConnects
          ((rotateEdges piece1.originalEdges (piece1.rotation / 90)).get direction)
          ((rotateEdges piece2.originalEdges (piece2.rotation / 90)).get
            (oppositeDirection direction))) :=
  ⟨by decide, fun _ _ _ => rfl⟩

/-- Claim C8 as stated is false: there is no pair of edge kinds on which
the connection rule disagrees with its transpose. -/
theorem c8_symmetry_counterexample :
    ¬ ∃ edge1 edge2 : EdgeType, edgeConnects edge1 edge2 ≠ edgeConnects edge2 edge1 := by
  decide

/-- Claim C8 (amended): the connection rule on edge kinds is symmetric,
`edgeConnects a b = edgeConnects b a` for every pair; the true fact behind
the claim is that the rule is not reflexive on tab/blank — tab connects to
blank but neither tab–tab nor blank–blank connects. -/
theorem c8_connection_symmetric :
    (∀ edge1 edge2 : EdgeType, edgeConnects edge1 edge2 = edgeConnects edge2 edge1) ∧
    edgeConnects .tab .blank = true ∧ edgeConnects .tab .tab = false ∧
    edgeConnects .blank .blank = false := by
  decide

/-- Claim C6 as stated is false: on the non-square 2×3 grid the 90-degree
position transform does not map the grid onto itself (cell (0,2) is sent
to (2,1), whose row is outside a 2-row grid), so it is not a bijection of
the grid. -/
theorem c6_rect_counterexample :
    ¬ Set.BijOn (fun p => getRotatedPosition p 90 2 3) (gridCells 2 3) (gridCells 2 3) := by
  intro h
  have hmem : (⟨0, 2⟩ : Pos) ∈ gridCells 2 3 := by
    simp
  have himg := h.mapsTo hmem
  rw [show getRotatedPosition ⟨0, 2⟩ 90 2 3 = ⟨2, 1⟩ from rfl] at himg
  simp at himg

/-- Claim C6 (amended): for every `rows`/`cols`, the position transforms at
rotations 0 and 180 are bijections of the R×C grid onto itself, and the
transforms at rotations 90 and 270 are bijections from the R×C grid onto
the C×R grid — hence bijections of the grid onto itself exactly in the
square case, which is the only shape the desktop game uses. -/
theorem c6_rotation_bijections (rows cols : Nat) :
    Set.BijOn (fun p => getRotatedPosition p 0 rows cols)
      (gridCells rows cols) (gridCells rows cols) ∧
    Set.BijOn (fun p => getRotatedPosition p 180 rows cols)
      (gridCells rows cols) (gridCells rows cols) ∧
    Set.BijOn (fun p => getRotatedPosition p 90 rows cols)
      (gridCells rows cols) (gridCells cols rows) ∧
    Set.BijOn (fun p => getRotatedPosition p 270 rows cols)
      (gridCells rows cols) (gridCells cols rows) := by
  refine ⟨?_, ?_, ?_, ?_⟩
  · have h0 : (fun p => getRotatedPosition p 0 rows cols) = fun p => p := by
      funext p
      exact getRotatedPosition_zero p rows cols
    rw [h0]
    exact Set.bijOn_id _
  · have hinv : Set.InvOn (fun p => getRotatedPosition p 180 rows cols)
        (fun p => getRotatedPosition p 180 rows cols)
        (gridCells rows cols) (gridCells rows cols) := by
      constructor
      all_goals
        intro p hp
        cases p
        simp only [mem_gridCells] at hp
        simp only [getRotatedPosition_180, Pos.mk.injEq, and_true, true_and]
        omega
    apply hinv.bijOn
    all_goals
      intro p hp
      cases p
      simp only [mem_gridCells] at hp ⊢
      simp only [getRotatedPosition_180]
      omega
  · have hinv : Set.InvOn (fun p => getRotatedPosition p 270 cols rows)
        (fun p => getRotatedPosition p 90 rows cols)
        (gridCells rows cols) (gridCells cols rows) := by
      constructor
      all_goals
        intro p hp
        cases p
        simp only [mem_gridCells] at hp
        simp only [getRotatedPosition_90, getRotatedPosition_270, Pos.mk.injEq, and_true,
          true_and]
        omega
    apply hinv.bijOn
    · intro p hp
      cases p
      simp only [mem_gridCells] at hp ⊢
      simp only [getRotatedPosition_90]
      omega
    · intro p hp
      cases p
      simp only [mem_gridCells] at hp ⊢
      simp only [getRotatedPosition_270]
      omega
  · have hinv : Set.InvOn (fun p => getRotatedPosition p 90 cols rows)
        (fun p => getRotatedPosition p 270 rows cols)
        (gridCells rows cols) (gridCells cols rows) := by
      constructor
      all_goals
        intro p hp
        cases p
        simp only [mem_gridCells] at hp
        simp only [getRotatedPosition_90, getRotatedPosition_270, Pos.mk.injEq, and_true,
          true_and]
        omega
    apply hinv.bijOn
    · intro p hp
      cases p
      simp only [mem_gridCells] at hp ⊢
      simp only [getRotatedPosition_270]
      omega
    · intro p hp
      cases p
      simp only [mem_gridCells] at hp ⊢
      simp only [getRotatedPosition_90]
      omega

/-- Claim C9: the three invalid operations are silent no-ops returning the
state unchanged (pieces, grid, move counter and move log included): a drop
on an occupied target cell, a drop with a piece id not present in the
piece array, and an undo on an empty move log. -/
theorem c9_invalid_ops_are_noops :
    (∀ (rows cols : Nat) (s : GameState) (pieceId gridRow gridCol : Nat),
      (s.puzzleGrid gridRow gridCol).isSome = true →
        handleGridCellDrop rows cols s pieceId gridRow gridCol = s) ∧
    (∀ (rows cols : Nat) (s : GameState) (pieceId gridRow gridCol : Nat),
      s.pieces.find? (fun p => p.id = pieceId) = none →
        handleGridCellDrop rows cols s pieceId gridRow gridCol = s) ∧
    (∀ s : GameState, s.moveHistory = [] → handleUndo s = s) := by
  refine ⟨?_, ?_, ?_⟩
  · intro rows cols s pieceId gridRow gridCol hocc
    unfold handleGridCellDrop
    cases hf : s.pieces.find? (fun p => p.id = pieceId) with
    | none => rfl
    | some piece => simp [hocc]
  · intro rows cols s pieceId gridRow gridCol hf
    unfold handleGridCellDrop
    rw [hf]
  · intro s h
    simp [handleUndo, h]

/-- Concrete state used to witness the no-op behaviour of invalid
operations: cell (0,0) is occupied, the piece array and the move log are
empty. -/
def occupiedState : GameState :=
  { pieces := []
    puzzleGrid := updateGrid (fun _ _ => none) 0 0 (some defaultGamePiece)
    moves := 0
    moveHistory := []
    gameCompleted := false
    completions := 0 }

/-- Witness for C9 at a concrete state: the occupied-cell drop, the
unknown-id drop and the empty-log undo all leave `occupiedState`
untouched. -/
theorem c9_invalid_ops_are_noops_witness :
    ((occupiedState.puzzleGrid 0 0).isSome = true ∧
      handleGridCellDrop 1 1 occupiedState 0 0 0 = occupiedState) ∧
    (occupiedState.pieces.find? (fun p => p.id = 0) = none ∧
      handleGridCellDrop 1 1 occupiedState 0 0 0 = occupiedState) ∧
    (occupiedState.moveHistory = [] ∧ handleUndo occupiedState = occupiedState) :=
  ⟨⟨rfl, c9_invalid_ops_are_noops.1 1 1 occupiedState 0 0 0 rfl⟩,
    ⟨rfl, c9_invalid_ops_are_noops.2.1 1 1 occupiedState 0 0 0 rfl⟩,
    ⟨rfl, c9_invalid_ops_are_noops.2.2 occupiedState rfl⟩⟩

/-- Claim C10: every undo on a non-empty move log increments the move
counter by exactly one, and `calculateScore` is antitone in the move
count, so extra moves (in particular undos) can only lower the final
score. -/
theorem c10_undo_counts_as_move :
    (∀ s : GameState, s.moveHistory ≠ [] → (handleUndo s).moves = s.moves + 1) ∧
    (∀ (gridSize timeElapsed : Nat) (difficulty : Difficulty) (moves1 moves2 : Nat),
      moves1 ≤ moves2 →
        calculateScore gridSize moves2 timeElapsed difficulty ≤
          calculateScore gridSize moves1 timeElapsed difficulty) := by
  constructor
  · intro s hne
    cases hlast : s.moveHistory.getLast? with
    | none =>
      rw [List.getLast?_eq_none_iff] at hlast
      exact absurd hlast hne
    | some lastMove =>
      simp only [handleUndo, hlast]
      cases lastMove with
      | place pieceId source target =>
        dsimp only
        cases s.pieces.find? (fun p => p.id = pieceId) with
        | none => rfl
        | some piece => cases source <;> rfl
      | remove pieceId source =>
        dsimp only
        cases s.pieces.find? (fun p => p.id = pieceId) with
        | none => rfl
        | some piece => rfl
      | rotate pieceId oldRotation newRotation => rfl
  · intro gridSize timeElapsed difficulty moves1 moves2 h12
    unfold calculateScore
    apply Int.floor_le_floor
    apply mul_le_mul_of_nonneg_right
    · apply add_le_add_left
      apply max_le_max le_rfl
      apply mul_le_mul_of_nonneg_right
      · apply sub_le_sub_left
        exact_mod_cast h12
      · norm_num
    · cases difficulty <;> norm_num [difficultyMultiplier]

/-- Concrete state used to witness C10: one rotate record in the log. -/
def rotatedOnceState : GameState :=
  { pieces := []
    puzzleGrid := fun _ _ => none
    moves := 5
    moveHistory := [Move.rotate 0 0 270]
    gameCompleted := false
    completions := 0 }

/-- Witness for C10 at concrete inputs: an undo on a one-entry log moves
the counter from 5 to 6, and 12 moves score no better than 7 moves on a
medium 3×3 game. -/
theorem c10_undo_counts_as_move_witness :
    (handleUndo rotatedOnceState).moves = 5 + 1 ∧
    calculateScore 3 12 40 .medium ≤ calculateScore 3 7 40 .medium :=
  ⟨c10_undo_counts_as_move.1 rotatedOnceState (by simp [rotatedOnceState]),
    c10_undo_counts_as_move.2 3 40 .medium 7 12 (by norm_num)⟩

/-- The single piece of a 1×1 puzzle at rotation 0. -/
def soloPiece : GamePiece :=
  { id := 0
    position := ⟨0, 0⟩
    rotation := 0
    originalEdges := ⟨.flat, .flat, .flat, .flat⟩
    currentGridPosition := none }

/-- A fresh 1×1 game holding `soloPiece`. -/
def soloStart : GameState :=
  initState [soloPiece]

/-- Claim C1 as stated is false: in a 1×1 game, placing the piece
correctly, removing it and placing it correctly again invokes the
completion callback twice — the drop handler re-fires `onComplete` on
every placement that restores the all-correct condition, with no guard on
the `gameCompleted` flag and no reset in between. -/
theorem c1_completion_fires_twice :
    (handleGridCellDrop 1 1
        (handleRemoveSelected (handleGridCellDrop 1 1 soloStart 0 0 0) 0)
        0 0 0).completions = 2 := by
  decide

/-- Claim C1 (amended): the completion callback fires on every placement
after which all pieces pass the completion check (evaluated, as in the
source, against the grid captured before the drop), regardless of whether
the game was already completed: whenever a drop of a known piece onto a
free cell leaves every piece correctly placed, the callback counter
increments — even from a state with `gameCompleted = true`. -/
theorem c1_completion_refires_after_completion
    (rows cols : Nat) (s : GameState) (pieceId gridRow gridCol : Nat)
    (piece : GamePiece)
    (hfind : s.pieces.find? (fun p => p.id = pieceId) = some piece)
    (hfree : (s.puzzleGrid gridRow gridCol).isSome = false)
    (_hdone : s.gameCompleted = true)
    (hall : allCorrectlyPlaced rows cols s.puzzleGrid
      (s.pieces.map fun p =>
        if p.id = pieceId then { p with currentGridPosition := some ⟨gridRow, gridCol⟩ }
        else p) = true) :
    (handleGridCellDrop rows cols s pieceId gridRow gridCol).completions =
      s.completions + 1 ∧
    (handleGridCellDrop rows cols s pieceId gridRow gridCol).gameCompleted = true := by
  simp only [handleGridCellDrop, hfind]
  rw [hfree]
  simp only [Bool.false_eq_true, if_false, hall, if_true, and_self]

/-- The state of the 1×1 game after completing it once and removing the
piece again: `gameCompleted` is still true, the cell is free. -/
def soloReopened : GameState :=
  handleRemoveSelected (handleGridCellDrop 1 1 soloStart 0 0 0) 0

/-- Witness for the amended C1 at a concrete input: re-placing the solo
piece from the already-completed, reopened 1×1 state fires the callback
again (counter 1 → 2). -/
theorem c1_completion_refires_witness :
    (handleGridCellDrop 1 1 soloReopened 0 0 0).completions = 1 + 1 ∧
    (handleGridCellDrop 1 1 soloReopened 0 0 0).gameCompleted = true :=
  c1_completion_refires_after_completion 1 1 soloReopened 0 0 0
    { soloPiece with currentGridPosition := none }
    (by decide) (by decide) (by decide) (by decide)

lemma pos_eq_mk_iff (p : Pos) (r c : Nat) : p = ⟨r, c⟩ ↔ p.row = r ∧ p.col = c := by
  cases p
  simp

/-- The placement rule as worded by the specification: the target must be
the home position transformed by the piece's current rotation, and for
each compass direction whose adjacent cell is inside the grid and
occupied, the piece's effective edge in that direction must connect with
the occupant's effective edge in the opposite direction; unoccupied or
out-of-grid neighbours impose no constraint. -/
def placementSpec (rows cols : Nat) (grid : Grid) (piece : GamePiece)
    (gridRow gridCol : Nat) : Prop :=
  getRotatedPosition piece.position piece.rotation rows cols = ⟨gridRow, gridCol⟩ ∧
  ∀ dd ∈ placementDirections, ∀ q : GamePiece,
    0 ≤ (gridRow : Int) + dd.1 → (gridRow : Int) + dd.1 < (rows : Int) →
    0 ≤ (gridCol : Int) + dd.2.1 → (gridCol : Int) + dd.2.1 < (cols : Int) →
    grid ((gridRow : Int) + dd.1).toNat ((gridCol : Int) + dd.2.1).toNat = some q →
    edgeConnects
      ((rotateEdges piece.originalEdges (piece.rotation / 90)).get dd.2.2)
      ((rotateEdges q.originalEdges (q.rotation / 90)).get
        (oppositeDirection dd.2.2)) = true

/-- Claim C2: `canPlacePiece` succeeds exactly when the rotated home
position equals the target and every occupied in-grid neighbour connects
with the piece's effective edge; in particular a piece at rotation 0 can
succeed only at its exact home position, and at rotation 90 only at the
90-degree-rotated home cell. -/
theorem c2_canPlacePiece_characterisation (rows cols : Nat) (grid : Grid)
    (piece : GamePiece) (gridRow gridCol : Nat) :
    (canPlacePiece rows cols grid piece gridRow gridCol = true ↔
      placementSpec rows cols grid piece gridRow gridCol) ∧
    (piece.rotation = 0 → canPlacePiece rows cols grid piece gridRow gridCol = true →
      piece.position = ⟨gridRow, gridCol⟩) ∧
    (piece.rotation = 90 → canPlacePiece rows cols grid piece gridRow gridCol = true →
      getRotatedPosition piece.position 90 rows cols = ⟨gridRow, gridCol⟩) := by
  have hmain : canPlacePiece rows cols grid piece gridRow gridCol = true ↔
      placementSpec rows cols grid piece gridRow gridCol := by
    unfold canPlacePiece placementSpec
    by_cases hpos : (getRotatedPosition piece.position piece.rotation rows cols).row = gridRow ∧
        (getRotatedPosition piece.position piece.rotation rows cols).col = gridCol
    · rw [if_pos hpos, List.all_eq_true]
      constructor
      · intro h
        refine ⟨(pos_eq_mk_iff _ _ _).mpr hpos, ?_⟩
        intro dd hdd q hb1 hb2 hb3 hb4 hsome
        have hq := h dd hdd
        rw [if_pos ⟨hb1, hb2, hb3, hb4⟩] at hq
        rw [hsome] at hq
        exact hq
      · rintro ⟨_, hconn⟩ dd hdd
        dsimp only
        split_ifs with hb
        · cases hg : grid ((gridRow : Int) + dd.1).toNat ((gridCol : Int) + dd.2.1).toNat with
          | none => rfl
          | some q => exact hconn dd hdd q hb.1 hb.2.1 hb.2.2.1 hb.2.2.2 hg
        · rfl
    · rw [if_neg hpos]
      constructor
      · intro h
        exact absurd h (by simp)
      · rintro ⟨hpos2, _⟩
        exact absurd ((pos_eq_mk_iff _ _ _).mp hpos2) hpos
  refine ⟨hmain, ?_, ?_⟩
  · intro hrot hcp
    have hspec := hmain.mp hcp
    have h0 := hspec.1
    rw [hrot, getRotatedPosition_zero] at h0
    exact h0
  · intro hrot hcp
    have hspec := hmain.mp hcp
    have h0 := hspec.1
    rw [hrot] at h0
    exact h0

/-- A sample piece with home cell (0,1) used as concrete C2 witness
input. -/
def cornerPiece : GamePiece :=
  { id := 1
    position := ⟨0, 1⟩
    rotation := 0
    originalEdges := ⟨.flat, .flat, .blank, .tab⟩
    currentGridPosition := none }

/-- Witness for C2 at a concrete input: the characterisation instantiated
for `cornerPiece` on an empty 2×2 grid at target (0,1). -/
theorem c2_canPlacePiece_characterisation_witness :
    (canPlacePiece 2 2 (fun _ _ => none) cornerPiece 0 1 = true ↔
      placementSpec 2 2 (fun _ _ => none) cornerPiece 0 1) ∧
    (cornerPiece.rotation = 0 → canPlacePiece 2 2 (fun _ _ => none) cornerPiece 0 1 = true →
      cornerPiece.position = ⟨0, 1⟩) ∧
    (cornerPiece.rotation = 90 → canPlacePiece 2 2 (fun _ _ => none) cornerPiece 0 1 = true →
      getRotatedPosition cornerPiece.position 90 2 2 = ⟨0, 1⟩) :=
  c2_canPlacePiece_characterisation 2 2 (fun _ _ => none) cornerPiece 0 1

/-- Closed form of a generated piece's bottom edge: flat on the last row,
otherwise the 50/50 draw for slot 2 of its cell. -/
def bottomEdgeAt (rows : Nat) (coin : Nat → Nat → Nat → Bool) (r c : Nat) : EdgeType :=
  if r = rows - 1 then .flat else coinEdge (coin r c 2)

/-- Closed form of a generated piece's right edge: flat in the last
column, otherwise the 50/50 draw for slot 1 of its cell. -/
def rightEdgeAt (cols : Nat) (coin : Nat → Nat → Nat → Bool) (r c : Nat) : EdgeType :=
  if c = cols - 1 then .flat else coinEdge (coin r c 1)

/-- Closed form of the four edges the generator assigns to the piece with
home cell (r, c): the neighbour-consistency pass forces the top edge to
complement the bottom edge of the piece above and the left edge to
complement the right edge of the piece to the left. -/
def pieceEdgesAt (rows cols : Nat) (pieceShape : PieceShape)
    (coin : Nat → Nat → Nat → Bool) (r c : Nat) : Edges :=
  match pieceShape with
  | .regular => ⟨.flat, .flat, .flat, .flat⟩
  | .irregular =>
    { top := if 0 < r then
        (if bottomEdgeAt rows coin (r - 1) c = .tab then .blank else .tab) else .flat
      right := rightEdgeAt cols coin r c
      bottom := bottomEdgeAt rows coin r c
      left := if 0 < c then
        (if rightEdgeAt cols coin r (c - 1) = .tab then .blank else .tab) else .flat }

/-- Closed form of the generated piece with home cell (r, c). -/
def pieceAt (rows cols : Nat) (pieceShape : PieceShape)
    (coin : Nat → Nat → Nat → Bool) (rotDraw : Nat → Nat → Fin 4) (r c : Nat) : GamePiece :=
  { id := r * cols + c
    position := ⟨r, c⟩
    rotation := (rotDraw r c).val * 90
    originalEdges := pieceEdgesAt rows cols pieceShape coin r c
    currentGridPosition := none }


lemma pieceAt_bottom (rows cols : Nat) (coin : Nat → Nat → Nat → Bool)
    (rotDraw : Nat → Nat → Fin 4) (r c : Nat) :
    (pieceAt rows cols .irregular coin rotDraw r c).originalEdges.bottom =
      bottomEdgeAt rows coin r c :=
  rfl

lemma pieceAt_right (rows cols : Nat) (coin : Nat → Nat → Nat → Bool)
    (rotDraw : Nat → Nat → Fin 4) (r c : Nat) :
    (pieceAt rows cols .irregular coin rotDraw r c).originalEdges.right =
      rightEdgeAt cols coin r c :=
  rfl

lemma generateStep_spec (rows cols : Nat) (pieceShape : PieceShape)
    (coin : Nat → Nat → Nat → Bool) (rotDraw : Nat → Nat → Fin 4)
    (acc : List GamePiece) (idx : Nat) (hcolspos : 0 < cols)
    (hget : ∀ i, i < idx →
      acc.getD i defaultGamePiece =
        pieceAt rows cols pieceShape coin rotDraw (i / cols) (i % cols)) :
    generateStep rows cols pieceShape coin rotDraw acc idx =
      acc ++ [pieceAt rows cols pieceShape coin rotDraw (idx / cols) (idx % cols)] := by
  cases pieceShape with
  | regular =>
    unfold generateStep pieceAt pieceEdgesAt
    simp
  | irregular =>
    have hsplit : cols * (idx / cols) + idx % cols = idx := Nat.div_add_mod idx cols
    unfold generateStep pieceAt pieceEdgesAt
    dsimp only
    by_cases hr : 0 < idx / cols
    all_goals by_cases hc : 0 < idx % cols
    case pos =>
      have hmodlt : idx % cols < cols := Nat.mod_lt _ hcolspos
      have htoplt : (idx / cols - 1) * cols + idx % cols < idx := by
        have h1 : (idx / cols - 1) * cols + cols = cols * (idx / cols) := by
          have h2 : idx / cols - 1 + 1 = idx / cols := by omega
          calc (idx / cols - 1) * cols + cols = (idx / cols - 1 + 1) * cols := by ring
            _ = cols * (idx / cols) := by rw [h2]; ring
        omega
      have hleftlt : idx / cols * cols + (idx % cols - 1) < idx := by
        have h1 : idx / cols * cols = cols * (idx / cols) := by ring
        omega
      have htopdiv : ((idx / cols - 1) * cols + idx % cols) / cols = idx / cols - 1 := by
        rw [mul_comm (idx / cols - 1) cols, Nat.mul_add_div hcolspos,
          Nat.div_eq_of_lt hmodlt, add_zero]
      have htopmod : ((idx / cols - 1) * cols + idx % cols) % cols = idx % cols := by
        rw [mul_comm (idx / cols - 1) cols, Nat.mul_add_mod, Nat.mod_eq_of_lt hmodlt]
      have hsub1 : idx % cols - 1 < cols := by omega
      have hleftdiv : (idx / cols * cols + (idx % cols - 1)) / cols = idx / cols := by
        rw [mul_comm (idx / cols) cols, Nat.mul_add_div hcolspos,
          Nat.div_eq_of_lt hsub1, add_zero]
      have hleftmod : (idx / cols * cols + (idx % cols - 1)) % cols = idx % cols - 1 := by
        rw [mul_comm (idx / cols) cols, Nat.mul_add_mod, Nat.mod_eq_of_lt hsub1]
      have htopget := hget _ htoplt
      have hleftget := hget _ hleftlt
      rw [htopdiv, htopmod] at htopget
      rw [hleftdiv, hleftmod] at hleftget
      rw [if_pos (show PieceShape.irregular = PieceShape.irregular ∧ 0 < idx / cols from
        ⟨rfl, hr⟩)]
      rw [if_pos (show PieceShape.irregular = PieceShape.irregular ∧ 0 < idx % cols from
        ⟨rfl, hc⟩)]
      rw [htopget, hleftget, pieceAt_bottom, pieceAt_right]
      rw [if_pos hr, if_pos hc]
      rfl
    case neg =>
      have hc0 : idx % cols = 0 := Nat.eq_zero_of_not_pos hc
      have hmodlt : idx % cols < cols := Nat.mod_lt _ hcolspos
      have htoplt : (idx / cols - 1) * cols + idx % cols < idx := by
        have h1 : (idx / cols - 1) * cols + cols = cols * (idx / cols) := by
          have h2 : idx / cols - 1 + 1 = idx / cols := by omega
          calc (idx / cols - 1) * cols + cols = (idx / cols - 1 + 1) * cols := by ring
            _ = cols * (idx / cols) := by rw [h2]; ring
        omega
      have htopdiv : ((idx / cols - 1) * cols + idx % cols) / cols = idx / cols - 1 := by
        rw [mul_comm (idx / cols - 1) cols, Nat.mul_add_div hcolspos,
          Nat.div_eq_of_lt hmodlt, add_zero]
      have htopmod : ((idx / cols - 1) * cols + idx % cols) % cols = idx % cols := by
        rw [mul_comm (idx / cols - 1) cols, Nat.mul_add_mod, Nat.mod_eq_of_lt hmodlt]
      have htopget := hget _ htoplt
      rw [htopdiv, htopmod] at htopget
      rw [if_pos (show PieceShape.irregular = PieceShape.irregular ∧ 0 < idx / cols from
        ⟨rfl, hr⟩)]
      rw [if_neg (show ¬ (PieceShape.irregular = PieceShape.irregular ∧ 0 < idx % cols) from
        fun h => hc h.2)]
      rw [htopget, pieceAt_bottom]
      rw [if_pos hr, if_neg hc, if_pos hc0]
      rfl
    case pos =>
      have hr0 : idx / cols = 0 := Nat.eq_zero_of_not_pos hr
      rw [if_neg (show ¬ (PieceShape.irregular = PieceShape.irregular ∧ 0 < idx / cols) from
        fun h => hr h.2)]
      rw [if_pos (show PieceShape.irregular = PieceShape.irregular ∧ 0 < idx % cols from
        ⟨rfl, hc⟩)]
      have hleftlt : idx / cols * cols + (idx % cols - 1) < idx := by
        have h1 : idx / cols * cols = cols * (idx / cols) := by ring
        omega
      have hmodlt : idx % cols < cols := Nat.mod_lt _ hcolspos
      have hsub1 : idx % cols - 1 < cols := by omega
      have hleftdiv : (idx / cols * cols + (idx % cols - 1)) / cols = idx / cols := by
        rw [mul_comm (idx / cols) cols, Nat.mul_add_div hcolspos,
          Nat.div_eq_of_lt hsub1, add_zero]
      have hleftmod : (idx / cols * cols + (idx % cols - 1)) % cols = idx % cols - 1 := by
        rw [mul_comm (idx / cols) cols, Nat.mul_add_mod, Nat.mod_eq_of_lt hsub1]
      have hleftget := hget _ hleftlt
      rw [hleftdiv, hleftmod] at hleftget
      rw [hleftget, pieceAt_right]
      rw [if_neg hr, if_pos hc, if_pos hr0]
      rfl
    case neg =>
      rw [if_neg (show ¬ (PieceShape.irregular = PieceShape.irregular ∧ 0 < idx / cols) from
        fun h => hr h.2)]
      rw [if_neg (show ¬ (PieceShape.irregular = PieceShape.irregular ∧ 0 < idx % cols) from
        fun h => hc h.2)]
      have hr0 : idx / cols = 0 := Nat.eq_zero_of_not_pos hr
      have hc0 : idx % cols = 0 := Nat.eq_zero_of_not_pos hc
      rw [if_neg hr, if_neg hc, if_pos hr0, if_pos hc0]
      rfl

lemma generate_foldl_spec (rows cols : Nat) (pieceShape : PieceShape)
    (coin : Nat → Nat → Nat → Bool) (rotDraw : Nat → Nat → Fin 4)
    (hcolspos : 0 < cols) (n : Nat) :
    ((List.range n).foldl (generateStep rows cols pieceShape coin rotDraw) []).length = n ∧
    ∀ i, i < n →
      ((List.range n).foldl (generateStep rows cols pieceShape coin rotDraw) []).getD i
          defaultGamePiece =
        pieceAt rows cols pieceShape coin rotDraw (i / cols) (i % cols) := by
  induction n with
  | zero => simp
  | succ m ih =>
    obtain ⟨ihlen, ihget⟩ := ih
    rw [List.range_succ, List.foldl_append, List.foldl_cons, List.foldl_nil]
    rw [generateStep_spec rows cols pieceShape coin rotDraw _ m hcolspos ihget]
    constructor
    · simp [ihlen]
    · intro i hi
      rcases Nat.lt_or_ge i m with him | him
      · rw [List.getD_append _ _ _ _ (by rw [ihlen]; exact him)]
        exact ihget i him
      · have hieq : i = m := by omega
        subst hieq
        rw [List.getD_append_right _ _ _ _ (by rw [ihlen])]
        rw [ihlen]
        simp

lemma mem_generatePuzzlePieces (rows cols : Nat) (pieceShape : PieceShape)
    (coin : Nat → Nat → Nat → Bool) (rotDraw : Nat → Nat → Fin 4) (p : GamePiece) :
    p ∈ generatePuzzlePieces rows cols pieceShape coin rotDraw ↔
      ∃ r c, r < rows ∧ c < cols ∧ p = pieceAt rows cols pieceShape coin rotDraw r c := by
  rcases Nat.eq_zero_or_pos cols with hcz | hcolspos
  · subst hcz
    unfold generatePuzzlePieces
    simp
  · obtain ⟨hlen, hget⟩ :=
      generate_foldl_spec rows cols pieceShape coin rotDraw hcolspos (rows * cols)
    unfold generatePuzzlePieces
    rw [List.mem_iff_getElem]
    constructor
    · rintro ⟨i, hilen, hieq⟩
      rw [hlen] at hilen
      refine ⟨i / cols, i % cols, ?_, Nat.mod_lt _ hcolspos, ?_⟩
      · rw [Nat.div_lt_iff_lt_mul hcolspos]
        calc i < rows * cols := hilen
          _ = rows * cols := rfl
      · rw [← hieq, ← List.getD_eq_getElem _ defaultGamePiece]
        exact hget i hilen
    · rintro ⟨r, c, hr, hc, hpeq⟩
      have hidx : r * cols + c < rows * cols := by
        calc r * cols + c < r * cols + cols := by omega
          _ = (r + 1) * cols := by ring
          _ ≤ rows * cols := Nat.mul_le_mul_right _ (by omega)
      have hdiv : (r * cols + c) / cols = r := by
        rw [mul_comm r cols, Nat.mul_add_div hcolspos, Nat.div_eq_of_lt hc, add_zero]
      have hmod : (r * cols + c) % cols = c := by
        rw [mul_comm r cols, Nat.mul_add_mod, Nat.mod_eq_of_lt hc]
      refine ⟨r * cols + c, by rw [hlen]; exact hidx, ?_⟩
      rw [← List.getD_eq_getElem _ defaultGamePiece]
      rw [hget _ hidx, hdiv, hmod, hpeq]

/-- Claim C3: for every grid dimension and every sequence of random draws
(and any order the random shuffle leaves the pieces in), the irregular
generator produces pieces whose outer-boundary edges are all flat and
whose home-adjacent internal shared edges are complementary: one side tab,
the other blank. -/
theorem c3_generator_edge_consistency (rows cols : Nat)
    (coin : Nat → Nat → Nat → Bool) (rotDraw : Nat → Nat → Fin 4)
    (ps : List GamePiece)
    (hperm : ps.Perm (generatePuzzlePieces rows cols .irregular coin rotDraw)) :
    (∀ p ∈ ps,
      (p.position.row = 0 → p.originalEdges.top = .flat) ∧
      (p.position.row = rows - 1 → p.originalEdges.bottom = .flat) ∧
      (p.position.col = 0 → p.originalEdges.left = .flat) ∧
      (p.position.col = cols - 1 → p.originalEdges.right = .flat)) ∧
    (∀ p q, p ∈ ps → q ∈ ps →
      p.position.row + 1 = q.position.row → p.position.col = q.position.col →
      ((p.originalEdges.bottom = .tab ∧ q.originalEdges.top = .blank) ∨
        (p.originalEdges.bottom = .blank ∧ q.originalEdges.top = .tab))) ∧
    (∀ p q, p ∈ ps → q ∈ ps →
      p.position.row = q.position.row → p.position.col + 1 = q.position.col →
      ((p.originalEdges.right = .tab ∧ q.originalEdges.left = .blank) ∨
        (p.originalEdges.right = .blank ∧ q.originalEdges.left = .tab))) := by
  have hmem : ∀ x : GamePiece, x ∈ ps ↔
      ∃ r c, r < rows ∧ c < cols ∧ x = pieceAt rows cols .irregular coin rotDraw r c :=
    fun x => (hperm.mem_iff).trans (mem_generatePuzzlePieces rows cols _ coin rotDraw x)
  refine ⟨?_, ?_, ?_⟩
  · intro p hp
    obtain ⟨r, c, hr, hc, rfl⟩ := (hmem p).mp hp
    refine ⟨?_, ?_, ?_, ?_⟩ <;> intro h <;>
      simp only [pieceAt] at h <;>
      simp [pieceAt, pieceEdgesAt, bottomEdgeAt, rightEdgeAt, h]
  · intro p q hp hq hrow hcol
    obtain ⟨r, c, hr, hc, rfl⟩ := (hmem p).mp hp
    obtain ⟨r2, c2, hr2, hc2, rfl⟩ := (hmem q).mp hq
    simp only [pieceAt] at hrow hcol
    subst hrow
    subst hcol
    have hrne : ¬ r = rows - 1 := by omega
    cases hcoin : coin r c 2 with
    | true =>
      left
      constructor
      · simp [pieceAt, pieceEdgesAt, bottomEdgeAt, hrne, hcoin, coinEdge]
      · simp [pieceAt, pieceEdgesAt, bottomEdgeAt, hrne, hcoin, coinEdge]
    | false =>
      right
      constructor
      · simp [pieceAt, pieceEdgesAt, bottomEdgeAt, hrne, hcoin, coinEdge]
      · simp [pieceAt, pieceEdgesAt, bottomEdgeAt, hrne, hcoin, coinEdge]
  · intro p q hp hq hrow hcol
    obtain ⟨r, c, hr, hc, rfl⟩ := (hmem p).mp hp
    obtain ⟨r2, c2, hr2, hc2, rfl⟩ := (hmem q).mp hq
    simp only [pieceAt] at hrow hcol
    subst hrow
    subst hcol
    have hcne : ¬ c = cols - 1 := by omega
    cases hcoin : coin r c 1 with
    | true =>
      left
      constructor
      · simp [pieceAt, pieceEdgesAt, rightEdgeAt, hcne, hcoin, coinEdge]
      · simp [pieceAt, pieceEdgesAt, rightEdgeAt, hcne, hcoin, coinEdge]
    | false =>
      right
      constructor
      · simp [pieceAt, pieceEdgesAt, rightEdgeAt, hcne, hcoin, coinEdge]
      · simp [pieceAt, pieceEdgesAt, rightEdgeAt, hcne, hcoin, coinEdge]

/-- Witness for C3 at a concrete input: a 2×2 irregular puzzle generated
from the all-true coin stream and zero rotation draws, taken in the
generator's own order. -/
theorem c3_generator_edge_consistency_witness :
    (∀ p ∈ generatePuzzlePieces 2 2 .irregular (fun _ _ _ => true) (fun _ _ => 0),
      (p.position.row = 0 → p.originalEdges.top = .flat) ∧
      (p.position.row = 2 - 1 → p.originalEdges.bottom = .flat) ∧
      (p.position.col = 0 → p.originalEdges.left = .flat) ∧
      (p.position.col = 2 - 1 → p.originalEdges.right = .flat)) ∧
    (∀ p q, p ∈ generatePuzzlePieces 2 2 .irregular (fun _ _ _ => true) (fun _ _ => 0) →
      q ∈ generatePuzzlePieces 2 2 .irregular (fun _ _ _ => true) (fun _ _ => 0) →
      p.position.row + 1 = q.position.row → p.position.col = q.position.col →
      ((p.originalEdges.bottom = .tab ∧ q.originalEdges.top = .blank) ∨
        (p.originalEdges.bottom = .blank ∧ q.originalEdges.top = .tab))) ∧
    (∀ p q, p ∈ generatePuzzlePieces 2 2 .irregular (fun _ _ _ => true) (fun _ _ => 0) →
      q ∈ generatePuzzlePieces 2 2 .irregular (fun _ _ _ => true) (fun _ _ => 0) →
      p.position.row = q.position.row → p.position.col + 1 = q.position.col →
      ((p.originalEdges.right = .tab ∧ q.originalEdges.left = .blank) ∨
        (p.originalEdges.right = .blank ∧ q.originalEdges.left = .tab))) :=
  c3_generator_edge_consistency 2 2 (fun _ _ _ => true) (fun _ _ => 0)
    (generatePuzzlePieces 2 2 .irregular (fun _ _ _ => true) (fun _ _ => 0))
    (List.Perm.refl _)

/-- One user operation of the engine (placement drop, removal of a
selected piece, rotation of a piece). -/
inductive Op where
  | place (pieceId gridRow gridCol : Nat)
  | removeSel (pieceId : Nat)
  | rotateSel (pieceId : Nat)
deriving DecidableEq, Repr

/-- Dispatch one operation to its handler. -/
def applyOp (rows cols : Nat) (s : GameState) : Op → GameState
  | .place pieceId gridRow gridCol => handleGridCellDrop rows cols s pieceId gridRow gridCol
  | .removeSel pieceId => handleRemoveSelected s pieceId
  | .rotateSel pieceId => handlePieceRotate s pieceId

/-- Run a list of operations in order. -/
def applyOps (rows cols : Nat) (s : GameState) (ops : List Op) : GameState :=
  ops.foldl (applyOp rows cols) s

/-- Run `handleUndo` n times. -/
def undoN : Nat → GameState → GameState
  | 0, s => s
  | n + 1, s => undoN n (handleUndo s)

/-- Observational equality between two game states: identical piece
arrays and move logs, and the same piece id (or emptiness) in every grid
cell.  The grid may differ in the stale snapshot fields (rotation,
recorded position) of the stored piece objects, which no operation's
control flow depends on. -/
def ObsEq (s t : GameState) : Prop :=
  s.pieces = t.pieces ∧ s.moveHistory = t.moveHistory ∧
  ∀ r c, (s.puzzleGrid r c).map GamePiece.id = (t.puzzleGrid r c).map GamePiece.id

lemma ObsEq.refl (s : GameState) : ObsEq s s :=
  ⟨rfl, rfl, fun _ _ => rfl⟩

lemma ObsEq.trans {s t u : GameState} (h1 : ObsEq s t) (h2 : ObsEq t u) : ObsEq s u :=
  ⟨h1.1.trans h2.1, h1.2.1.trans h2.2.1, fun r c => (h1.2.2 r c).trans (h2.2.2 r c)⟩

/-- The piece array has pairwise distinct ids (true of every generated
piece set, where ids enumerate the cells in row-major order). -/
def IdsNodup (s : GameState) : Prop :=
  (s.pieces.map GamePiece.id).Nodup

/-- Agreement between the grid index and the piece array: every occupied
cell stores an object whose id belongs to a live piece positioned at that
cell, and every placed piece's cell stores an object with its id. -/
def Agrees (s : GameState) : Prop :=
  (∀ r c q, s.puzzleGrid r c = some q →
    ∃ p ∈ s.pieces, p.id = q.id ∧ p.currentGridPosition = some ⟨r, c⟩) ∧
  (∀ p ∈ s.pieces, ∀ x : Pos, p.currentGridPosition = some x →
    ∃ q, s.puzzleGrid x.row x.col = some q ∧ q.id = p.id)

@[simp]
lemma updateGrid_same (g : Grid) (r c : Nat) (v : Option GamePiece) :
    updateGrid g r c v r c = v := by
  simp [updateGrid]

lemma updateGrid_ne (g : Grid) (r c : Nat) (v : Option GamePiece) (r' c' : Nat)
    (h : ¬ (r' = r ∧ c' = c)) : updateGrid g r c v r' c' = g r' c' := by
  simp only [updateGrid, if_neg h]

lemma unique_by_id {l : List GamePiece} (hnd : (l.map GamePiece.id).Nodup)
    {p q : GamePiece} (hp : p ∈ l) (hq : q ∈ l) (hid : p.id = q.id) : p = q :=
  List.inj_on_of_nodup_map hnd hp hq hid

lemma find?_id_some_mem {l : List GamePiece} {k : Nat} {a : GamePiece}
    (h : l.find? (fun p => p.id = k) = some a) : a ∈ l ∧ a.id = k := by
  refine ⟨List.mem_of_find?_eq_some h, ?_⟩
  have := List.find?_some h
  exact of_decide_eq_true this

lemma map_update_id_eq_self {l : List GamePiece} {k : Nat} {f : GamePiece → GamePiece}
    (h : ∀ p ∈ l, ¬ p.id = k) :
    (l.map fun p => if p.id = k then f p else p) = l := by
  have hcongr : (l.map fun p => if p.id = k then f p else p) = l.map id := by
    apply List.map_congr_left
    intro a ha
    simp [h a ha]
  rw [hcongr, List.map_id]

lemma map_update_map_id {l : List GamePiece} {k : Nat} {f : GamePiece → GamePiece}
    (hid : ∀ p, (f p).id = p.id) :
    (l.map fun p => if p.id = k then f p else p).map GamePiece.id = l.map GamePiece.id := by
  rw [List.map_map]
  apply List.map_congr_left
  intro a _
  by_cases h : a.id = k <;> simp [h, hid]

lemma find?_map_update {l : List GamePiece} {k : Nat} {f : GamePiece → GamePiece}
    (hid : ∀ p, (f p).id = p.id) :
    (l.map fun p => if p.id = k then f p else p).find? (fun p => p.id = k) =
      (l.find? (fun p => p.id = k)).map fun p => if p.id = k then f p else p := by
  rw [List.find?_map]
  have hpred : ((fun p : GamePiece => decide (p.id = k)) ∘
      fun p => if p.id = k then f p else p) = fun p : GamePiece => decide (p.id = k) := by
    funext a
    by_cases h : a.id = k <;> simp [h, hid]
  rw [hpred]

lemma setFirstById_eq_map {l : List GamePiece} {k : Nat} {v : GamePiece}
    (hnd : (l.map GamePiece.id).Nodup) :
    setFirstById l k v = l.map fun p => if p.id = k then v else p := by
  induction l with
  | nil => rfl
  | cons p rest ih =>
    rw [List.map_cons, List.nodup_cons] at hnd
    by_cases h : p.id = k
    · have hrest : (rest.map fun q => if q.id = k then v else q) = rest :=
        map_update_id_eq_self (fun a ha hak =>
          hnd.1 (by rw [h, ← hak]; exact List.mem_map_of_mem _ ha))
      unfold setFirstById
      rw [if_pos h, List.map_cons, if_pos h, hrest]
    · unfold setFirstById
      rw [if_neg h, List.map_cons, if_neg h, ih hnd.2]

lemma filter_id_eq_singleton {l : List GamePiece} {k : Nat} {a : GamePiece}
    (hnd : (l.map GamePiece.id).Nodup) (hf : l.find? (fun p => p.id = k) = some a) :
    l.filter (fun p => p.id = k) = [a] := by
  induction l with
  | nil => simp at hf
  | cons p rest ih =>
    rw [List.map_cons, List.nodup_cons] at hnd
    by_cases h : p.id = k
    · rw [List.find?_cons_of_pos _ (by simp [h])] at hf
      have hap : a = p := by
        injection hf with hf2
        exact hf2.symm
      subst hap
      rw [List.filter_cons_of_pos (by simp [h])]
      have hrest : rest.filter (fun p => p.id = k) = [] := by
        rw [List.filter_eq_nil_iff]
        intro q hq
        simp only [decide_eq_true_eq]
        intro hqk
        exact hnd.1 (by rw [h, ← hqk]; exact List.mem_map_of_mem _ hq)
      rw [hrest]
    · rw [List.find?_cons_of_neg _ (by simp [h])] at hf
      rw [List.filter_cons_of_neg (by simp [h])]
      exact ih hnd.2 hf

lemma filter_id_eq_nil {l : List GamePiece} {k : Nat}
    (hf : l.find? (fun p => p.id = k) = none) :
    l.filter (fun p => p.id = k) = [] := by
  rw [List.filter_eq_nil_iff]
  intro q hq
  simp only [decide_eq_true_eq]
  rw [List.find?_eq_none] at hf
  have := hf q hq
  simpa using this

lemma map_update_comp {l : List GamePiece} {k : Nat} (f g : GamePiece → GamePiece)
    (hid : ∀ p, (f p).id = p.id) :
    ((l.map fun p => if p.id = k then f p else p).map fun p => if p.id = k then g p else p) =
      l.map fun p => if p.id = k then g (f p) else p := by
  rw [List.map_map]
  apply List.map_congr_left
  intro a _
  by_cases h : a.id = k <;> simp [h, hid]

lemma map_update_restore {l : List GamePiece} {k : Nat} {a : GamePiece}
    (hnd : (l.map GamePiece.id).Nodup) (ha : a ∈ l) (haid : a.id = k)
    (f : GamePiece → GamePiece) (hfa : f a = a) :
    (l.map fun p => if p.id = k then f p else p) = l := by
  have : (l.map fun p => if p.id = k then f p else p) = l.map id := by
    apply List.map_congr_left
    intro q hq
    by_cases h : q.id = k
    · have : q = a := unique_by_id hnd hq ha (by rw [h, haid])
      subst this
      simp [h, hfa]
    · simp [h]
  rw [this, List.map_id]

lemma updateGrid_obsEq {g1 g2 : Grid}
    (h : ∀ r c, (g1 r c).map GamePiece.id = (g2 r c).map GamePiece.id)
    (r c : Nat) (v : Option GamePiece) :
    ∀ r' c', (updateGrid g1 r c v r' c').map GamePiece.id =
      (updateGrid g2 r c v r' c').map GamePiece.id := by
  intro r' c'
  by_cases hb : r' = r ∧ c' = c
  · rw [show updateGrid g1 r c v r' c' = v from by simp [updateGrid, hb],
      show updateGrid g2 r c v r' c' = v from by simp [updateGrid, hb]]
  · rw [updateGrid_ne _ _ _ _ _ _ hb, updateGrid_ne _ _ _ _ _ _ hb]
    exact h r' c'

lemma isSome_eq_of_obsEq {o1 o2 : Option GamePiece}
    (h : o1.map GamePiece.id = o2.map GamePiece.id) : o1.isSome = o2.isSome := by
  cases o1 <;> cases o2 <;> simp_all

lemma obsEq_drop {s t : GameState} (h : ObsEq s t) (rows cols k r c : Nat) :
    ObsEq (handleGridCellDrop rows cols s k r c) (handleGridCellDrop rows cols t k r c) := by
  obtain ⟨hp, hh, hg⟩ := h
  unfold handleGridCellDrop
  rw [hp]
  cases hf : t.pieces.find? (fun p => p.id = k) with
  | none => exact ⟨hp, hh, hg⟩
  | some piece =>
    dsimp only
    have hocc : (s.puzzleGrid r c).isSome = (t.puzzleGrid r c).isSome :=
      isSome_eq_of_obsEq (hg r c)
    rw [hocc]
    by_cases hoccb : (t.puzzleGrid r c).isSome
    · rw [if_pos hoccb, if_pos hoccb]
      exact ⟨hp, hh, hg⟩
    · rw [if_neg hoccb, if_neg hoccb]
      refine ⟨rfl, by rw [hh], ?_⟩
      apply updateGrid_obsEq
      cases piece.currentGridPosition with
      | none => exact hg
      | some cp => exact updateGrid_obsEq hg cp.row cp.col none

lemma obsEq_remove {s t : GameState} (h : ObsEq s t) (k : Nat) :
    ObsEq (handleRemoveSelected s k) (handleRemoveSelected t k) := by
  obtain ⟨hp, hh, hg⟩ := h
  unfold handleRemoveSelected
  rw [hp]
  cases hf : t.pieces.find? (fun p => p.id = k) with
  | none => exact ⟨hp, hh, hg⟩
  | some piece =>
    dsimp only
    cases hcgp : piece.currentGridPosition with
    | none => exact ⟨hp, hh, hg⟩
    | some gridPos =>
      dsimp only
      exact ⟨rfl, by rw [hh], updateGrid_obsEq hg gridPos.row gridPos.col none⟩

lemma obsEq_rotate {s t : GameState} (h : ObsEq s t) (k : Nat) :
    ObsEq (handlePieceRotate s k) (handlePieceRotate t k) := by
  obtain ⟨hp, hh, hg⟩ := h
  unfold handlePieceRotate
  rw [hp]
  exact ⟨rfl, by rw [hh], hg⟩

lemma obsEq_applyOp {s t : GameState} (h : ObsEq s t) (rows cols : Nat) (op : Op) :
    ObsEq (applyOp rows cols s op) (applyOp rows cols t op) := by
  cases op with
  | place k r c => exact obsEq_drop h rows cols k r c
  | removeSel k => exact obsEq_remove h k
  | rotateSel k => exact obsEq_rotate h k

lemma obsEq_undo {s t : GameState} (h : ObsEq s t) :
    ObsEq (handleUndo s) (handleUndo t) := by
  obtain ⟨hp, hh, hg⟩ := h
  unfold handleUndo
  rw [hh]
  cases hl : t.moveHistory.getLast? with
  | none => exact ⟨hp, hh, hg⟩
  | some lastMove =>
    cases lastMove with
    | place k src tgt =>
      dsimp only
      rw [hp]
      cases hf : t.pieces.find? (fun p => p.id = k) with
      | none =>
        dsimp only
        exact ⟨rfl, rfl, updateGrid_obsEq hg tgt.row tgt.col none⟩
      | some piece =>
        dsimp only
        cases src with
        | none =>
          exact ⟨rfl, rfl, updateGrid_obsEq hg tgt.row tgt.col none⟩
        | some f =>
          refine ⟨rfl, rfl, ?_⟩
          exact updateGrid_obsEq (updateGrid_obsEq hg tgt.row tgt.col none) f.row f.col _
    | remove k src =>
      dsimp only
      rw [hp]
      cases hf : t.pieces.find? (fun p => p.id = k) with
      | none =>
        dsimp only
        exact ⟨rfl, rfl, hg⟩
      | some piece =>
        dsimp only
        exact ⟨rfl, rfl, updateGrid_obsEq hg src.row src.col _⟩
    | rotate k oldRot newRot =>
      dsimp only
      rw [hp]
      exact ⟨rfl, rfl, hg⟩

lemma obsEq_undoN {s t : GameState} (h : ObsEq s t) (n : Nat) :
    ObsEq (undoN n s) (undoN n t) := by
  induction n generalizing s t with
  | zero => exact h
  | succ m ih => exact ih (obsEq_undo h)

lemma drop_noop_unknown (rows cols : Nat) (s : GameState) (k r c : Nat)
    (hf : s.pieces.find? (fun p => p.id = k) = none) :
    handleGridCellDrop rows cols s k r c = s := by
  unfold handleGridCellDrop
  rw [hf]

lemma drop_noop_occupied (rows cols : Nat) (s : GameState) (k r c : Nat)
    (hocc : (s.puzzleGrid r c).isSome = true) :
    handleGridCellDrop rows cols s k r c = s := by
  unfold handleGridCellDrop
  cases hf : s.pieces.find? (fun p => p.id = k) with
  | none => rfl
  | some piece =>
    dsimp only
    rw [if_pos hocc]

lemma drop_effective (rows cols : Nat) (s : GameState) (k r c : Nat) (piece : GamePiece)
    (hf : s.pieces.find? (fun p => p.id = k) = some piece)
    (hocc : s.puzzleGrid r c = none) :
    (handleGridCellDrop rows cols s k r c).pieces =
      (s.pieces.map fun p =>
        if p.id = k then { p with currentGridPosition := some ⟨r, c⟩ } else p) ∧
    (handleGridCellDrop rows cols s k r c).moveHistory =
      s.moveHistory ++ [Move.place k piece.currentGridPosition ⟨r, c⟩] ∧
    (handleGridCellDrop rows cols s k r c).puzzleGrid =
      updateGrid
        (match piece.currentGridPosition with
          | some cp => updateGrid s.puzzleGrid cp.row cp.col none
          | none => s.puzzleGrid) r c (some piece) := by
  unfold handleGridCellDrop
  rw [hf]
  dsimp only
  rw [if_neg (by simp [hocc])]
  exact ⟨rfl, rfl, rfl⟩

lemma remove_noop_unknown (s : GameState) (k : Nat)
    (hf : s.pieces.find? (fun p => p.id = k) = none) :
    handleRemoveSelected s k = s := by
  unfold handleRemoveSelected
  rw [hf]

lemma remove_noop_unplaced (s : GameState) (k : Nat) (piece : GamePiece)
    (hf : s.pieces.find? (fun p => p.id = k) = some piece)
    (hcgp : piece.currentGridPosition = none) :
    handleRemoveSelected s k = s := by
  unfold handleRemoveSelected
  rw [hf]
  dsimp only
  rw [hcgp]

lemma remove_effective (s : GameState) (k : Nat) (piece : GamePiece) (gridPos : Pos)
    (hf : s.pieces.find? (fun p => p.id = k) = some piece)
    (hcgp : piece.currentGridPosition = some gridPos) :
    (handleRemoveSelected s k).pieces =
      (s.pieces.map fun p =>
        if p.id = k then { p with currentGridPosition := none } else p) ∧
    (handleRemoveSelected s k).moveHistory =
      s.moveHistory ++ [Move.remove k gridPos] ∧
    (handleRemoveSelected s k).puzzleGrid =
      updateGrid s.puzzleGrid gridPos.row gridPos.col none := by
  unfold handleRemoveSelected
  rw [hf]
  dsimp only
  rw [hcgp]
  exact ⟨rfl, rfl, rfl⟩

lemma rotate_noop (s : GameState) (k : Nat)
    (hf : s.pieces.find? (fun p => p.id = k) = none) :
    handlePieceRotate s k = { s with moves := s.moves + 1 } := by
  unfold handlePieceRotate
  have hno : ∀ p ∈ s.pieces, ¬ p.id = k := by
    rw [List.find?_eq_none] at hf
    intro p hp
    simpa using hf p hp
  rw [map_update_id_eq_self hno, filter_id_eq_nil hf, List.map_nil, List.append_nil]

lemma rotate_effective (s : GameState) (k : Nat) (piece : GamePiece)
    (hnd : IdsNodup s)
    (hf : s.pieces.find? (fun p => p.id = k) = some piece) :
    (handlePieceRotate s k).pieces =
      (s.pieces.map fun p =>
        if p.id = k then { p with rotation := (p.rotation + 270) % 360 } else p) ∧
    (handlePieceRotate s k).moveHistory =
      s.moveHistory ++ [Move.rotate k piece.rotation ((piece.rotation + 270) % 360)] ∧
    (handlePieceRotate s k).puzzleGrid = s.puzzleGrid := by
  unfold handlePieceRotate
  rw [filter_id_eq_singleton hnd hf]
  exact ⟨rfl, rfl, rfl⟩

lemma idsNodup_drop (rows cols : Nat) (s : GameState) (k r c : Nat)
    (h : IdsNodup s) : IdsNodup (handleGridCellDrop rows cols s k r c) := by
  cases hf : s.pieces.find? (fun p => p.id = k) with
  | none =>
    rw [drop_noop_unknown rows cols s k r c hf]
    exact h
  | some piece =>
    by_cases hocc : (s.puzzleGrid r c).isSome
    · rw [drop_noop_occupied rows cols s k r c hocc]
      exact h
    · have hoccn : s.puzzleGrid r c = none := by
        cases hgrc : s.puzzleGrid r c with
        | none => rfl
        | some q => rw [hgrc] at hocc; simp at hocc
      unfold IdsNodup
      rw [(drop_effective rows cols s k r c piece hf hoccn).1,
        map_update_map_id (f := fun p => { p with currentGridPosition := some ⟨r, c⟩ })
          (fun p => rfl)]
      exact h

lemma idsNodup_remove (s : GameState) (k : Nat) (h : IdsNodup s) :
    IdsNodup (handleRemoveSelected s k) := by
  cases hf : s.pieces.find? (fun p => p.id = k) with
  | none =>
    rw [remove_noop_unknown s k hf]
    exact h
  | some piece =>
    cases hcgp : piece.currentGridPosition with
    | none =>
      rw [remove_noop_unplaced s k piece hf hcgp]
      exact h
    | some gridPos =>
      unfold IdsNodup
      rw [(remove_effective s k piece gridPos hf hcgp).1,
        map_update_map_id (f := fun p => { p with currentGridPosition := none })
          (fun p => rfl)]
      exact h

lemma idsNodup_rotate (s : GameState) (k : Nat) (h : IdsNodup s) :
    IdsNodup (handlePieceRotate s k) := by
  unfold handlePieceRotate IdsNodup
  dsimp only
  rw [map_update_map_id (f := fun p => { p with rotation := (p.rotation + 270) % 360 })
    (fun p => rfl)]
  exact h

lemma idsNodup_applyOp (rows cols : Nat) (s : GameState) (op : Op)
    (h : IdsNodup s) : IdsNodup (applyOp rows cols s op) := by
  cases op with
  | place k r c => exact idsNodup_drop rows cols s k r c h
  | removeSel k => exact idsNodup_remove s k h
  | rotateSel k => exact idsNodup_rotate s k h

lemma mem_map_update_self {l : List GamePiece} {k : Nat} {f : GamePiece → GamePiece}
    {p : GamePiece} (hp : p ∈ l) (hnk : ¬ p.id = k) :
    p ∈ l.map fun q => if q.id = k then f q else q := by
  have hkeep : (if p.id = k then f p else p) = p := if_neg hnk
  rw [← hkeep]
  exact List.mem_map_of_mem _ hp

lemma mem_map_update_hit {l : List GamePiece} {k : Nat} {f : GamePiece → GamePiece}
    {a : GamePiece} (ha : a ∈ l) (hak : a.id = k) :
    f a ∈ l.map fun q => if q.id = k then f q else q := by
  have hhit : (if a.id = k then f a else a) = f a := if_pos hak
  rw [← hhit]
  exact List.mem_map_of_mem _ ha

lemma agrees_drop (rows cols : Nat) (s : GameState) (k r c : Nat)
    (hnd : IdsNodup s) (hag : Agrees s) :
    Agrees (handleGridCellDrop rows cols s k r c) := by
  obtain ⟨hA1, hA2⟩ := hag
  cases hf : s.pieces.find? (fun p => p.id = k) with
  | none =>
    rw [drop_noop_unknown rows cols s k r c hf]
    exact ⟨hA1, hA2⟩
  | some piece =>
    by_cases hocc : (s.puzzleGrid r c).isSome
    · rw [drop_noop_occupied rows cols s k r c hocc]
      exact ⟨hA1, hA2⟩
    · have hoccn : s.puzzleGrid r c = none := by
        cases hgrc : s.puzzleGrid r c with
        | none => rfl
        | some q => rw [hgrc] at hocc; simp at hocc
      obtain ⟨hmem, hpid⟩ := find?_id_some_mem hf
      obtain ⟨hps, hhs, hgs⟩ := drop_effective rows cols s k r c piece hf hoccn
      constructor
      · intro r' c' q hq
        rw [hgs] at hq
        by_cases hb : r' = r ∧ c' = c
        · obtain ⟨hbr, hbc⟩ := hb
          subst hbr
          subst hbc
          rw [updateGrid_same] at hq
          injection hq with hqe
          refine ⟨{ piece with currentGridPosition := some ⟨r', c'⟩ }, ?_, ?_, rfl⟩
          · rw [hps]
            exact mem_map_update_hit hmem hpid
          · rw [← hqe]
        · rw [updateGrid_ne _ _ _ _ _ _ hb] at hq
          cases hcgp : piece.currentGridPosition with
          | some cp =>
            rw [hcgp] at hq
            dsimp only at hq
            by_cases hb2 : r' = cp.row ∧ c' = cp.col
            · obtain ⟨h1, h2⟩ := hb2
              subst h1
              subst h2
              rw [updateGrid_same] at hq
              exact absurd hq (by simp)
            · rw [updateGrid_ne _ _ _ _ _ _ hb2] at hq
              obtain ⟨p, hpmem, hpidq, hppos⟩ := hA1 r' c' q hq
              have hpk : ¬ p.id = k := by
                intro hpk
                have hpp : p = piece := unique_by_id hnd hpmem hmem (by rw [hpk, hpid])
                rw [hpp, hcgp] at hppos
                injection hppos with he
                apply hb2
                subst he
                exact ⟨rfl, rfl⟩
              refine ⟨p, ?_, hpidq, hppos⟩
              rw [hps]
              exact mem_map_update_self hpmem hpk
          | none =>
            rw [hcgp] at hq
            dsimp only at hq
            obtain ⟨p, hpmem, hpidq, hppos⟩ := hA1 r' c' q hq
            have hpk : ¬ p.id = k := by
              intro hpk
              have hpp : p = piece := unique_by_id hnd hpmem hmem (by rw [hpk, hpid])
              rw [hpp, hcgp] at hppos
              exact Option.noConfusion hppos
            refine ⟨p, ?_, hpidq, hppos⟩
            rw [hps]
            exact mem_map_update_self hpmem hpk
      · intro p' hp' x hx
        rw [hps] at hp'
        obtain ⟨p, hpmem, hpeq⟩ := List.mem_map.mp hp'
        by_cases hpk : p.id = k
        · have hpp : p = piece := unique_by_id hnd hpmem hmem (by rw [hpk, hpid])
          have hupd : p' = { p with currentGridPosition := some ⟨r, c⟩ } := by
            rw [← hpeq, if_pos hpk]
          have hxrc : x = ⟨r, c⟩ := by
            rw [hupd] at hx
            injection hx with hxe
            exact hxe.symm
          subst hxrc
          rw [hgs]
          refine ⟨piece, ?_, ?_⟩
          · rw [updateGrid_same]
          · rw [hupd, hpp]
        · have hp'p : p' = p := by rw [← hpeq, if_neg hpk]
          subst hp'p
          obtain ⟨q0, hq0grid, hq0id⟩ := hA2 p' hpmem x hx
          rw [hgs]
          have hxrc : ¬ (x.row = r ∧ x.col = c) := by
            intro hxb
            rw [hxb.1, hxb.2, hoccn] at hq0grid
            exact Option.noConfusion hq0grid
          rw [updateGrid_ne _ _ _ _ _ _ hxrc]
          cases hcgp : piece.currentGridPosition with
          | none => exact ⟨q0, hq0grid, hq0id⟩
          | some cp =>
            dsimp only
            have hxcp : ¬ (x.row = cp.row ∧ x.col = cp.col) := by
              intro hxb
              obtain ⟨q1, hq1g, hq1id⟩ := hA2 piece hmem cp hcgp
              rw [← hxb.1, ← hxb.2] at hq1g
              rw [hq0grid] at hq1g
              injection hq1g with hq01
              apply hpk
              rw [← hq0id, hq01, hq1id, hpid]
            rw [updateGrid_ne _ _ _ _ _ _ hxcp]
            exact ⟨q0, hq0grid, hq0id⟩

lemma agrees_remove (s : GameState) (k : Nat) (hnd : IdsNodup s) (hag : Agrees s) :
    Agrees (handleRemoveSelected s k) := by
  obtain ⟨hA1, hA2⟩ := hag
  cases hf : s.pieces.find? (fun p => p.id = k) with
  | none =>
    rw [remove_noop_unknown s k hf]
    exact ⟨hA1, hA2⟩
  | some piece =>
    cases hcgp : piece.currentGridPosition with
    | none =>
      rw [remove_noop_unplaced s k piece hf hcgp]
      exact ⟨hA1, hA2⟩
    | some gridPos =>
      obtain ⟨hmem, hpid⟩ := find?_id_some_mem hf
      obtain ⟨hps, hhs, hgs⟩ := remove_effective s k piece gridPos hf hcgp
      constructor
      · intro r' c' q hq
        rw [hgs] at hq
        by_cases hb : r' = gridPos.row ∧ c' = gridPos.col
        · obtain ⟨h1, h2⟩ := hb
          subst h1
          subst h2
          rw [updateGrid_same] at hq
          exact absurd hq (by simp)
        · rw [updateGrid_ne _ _ _ _ _ _ hb] at hq
          obtain ⟨p, hpmem, hpidq, hppos⟩ := hA1 r' c' q hq
          have hpk : ¬ p.id = k := by
            intro hpk
            have hpp : p = piece := unique_by_id hnd hpmem hmem (by rw [hpk, hpid])
            rw [hpp, hcgp] at hppos
            injection hppos with he
            apply hb
            subst he
            exact ⟨rfl, rfl⟩
          refine ⟨p, ?_, hpidq, hppos⟩
          rw [hps]
          exact mem_map_update_self hpmem hpk
      · intro p' hp' x hx
        rw [hps] at hp'
        obtain ⟨p, hpmem, hpeq⟩ := List.mem_map.mp hp'
        by_cases hpk : p.id = k
        · have hupd : p' = { p with currentGridPosition := none } := by
            rw [← hpeq, if_pos hpk]
          rw [hupd] at hx
          exact absurd hx (by simp)
        · have hp'p : p' = p := by rw [← hpeq, if_neg hpk]
          subst hp'p
          obtain ⟨q0, hq0g, hq0id⟩ := hA2 p' hpmem x hx
          rw [hgs]
          have hxgp : ¬ (x.row = gridPos.row ∧ x.col = gridPos.col) := by
            intro hxb
            obtain ⟨q1, hq1g, hq1id⟩ := hA2 piece hmem gridPos hcgp
            rw [← hxb.1, ← hxb.2] at hq1g
            rw [hq0g] at hq1g
            injection hq1g with hq01
            exact hpk (by rw [← hq0id, hq01, hq1id, hpid])
          rw [updateGrid_ne _ _ _ _ _ _ hxgp]
          exact ⟨q0, hq0g, hq0id⟩

lemma agrees_rotate (s : GameState) (k : Nat) (hag : Agrees s) :
    Agrees (handlePieceRotate s k) := by
  obtain ⟨hA1, hA2⟩ := hag
  unfold handlePieceRotate
  constructor
  · intro r' c' q hq
    obtain ⟨p, hpmem, hpidq, hppos⟩ := hA1 r' c' q hq
    refine ⟨if p.id = k then { p with rotation := (p.rotation + 270) % 360 } else p,
      List.mem_map_of_mem _ hpmem, ?_, ?_⟩
    · by_cases h : p.id = k
      · rw [if_pos h]
        exact hpidq
      · rw [if_neg h]
        exact hpidq
    · by_cases h : p.id = k
      · rw [if_pos h]
        exact hppos
      · rw [if_neg h]
        exact hppos
  · intro p' hp' x hx
    obtain ⟨p, hpmem, hpeq⟩ := List.mem_map.mp hp'
    have hcgp : p.currentGridPosition = some x := by
      rw [← hpeq] at hx
      by_cases h : p.id = k
      · rw [if_pos h] at hx
        exact hx
      · rw [if_neg h] at hx
        exact hx
    have hid : p'.id = p.id := by
      rw [← hpeq]
      by_cases h : p.id = k <;> simp [h]
    obtain ⟨q0, hq0g, hq0id⟩ := hA2 p hpmem x hcgp
    exact ⟨q0, hq0g, by rw [hq0id, hid]⟩

lemma agrees_applyOp (rows cols : Nat) (s : GameState) (op : Op)
    (hnd : IdsNodup s) (hag : Agrees s) : Agrees (applyOp rows cols s op) := by
  cases op with
  | place k r c => exact agrees_drop rows cols s k r c hnd hag
  | removeSel k => exact agrees_remove s k hnd hag
  | rotateSel k => exact agrees_rotate s k hag

lemma rotate_inverts (s : GameState) (k : Nat) (piece : GamePiece)
    (hnd : IdsNodup s) (hf : s.pieces.find? (fun p => p.id = k) = some piece) :
    ObsEq (handleUndo (handlePieceRotate s k)) s := by
  obtain ⟨hmem, hpid⟩ := find?_id_some_mem hf
  obtain ⟨hps, hhs, hgs⟩ := rotate_effective s k piece hnd hf
  unfold handleUndo
  rw [hhs, List.getLast?_concat]
  dsimp only
  refine ⟨?_, ?_, ?_⟩
  · dsimp only
    rw [hps, map_update_comp (fun p => { p with rotation := (p.rotation + 270) % 360 })
      (fun p => { p with rotation := piece.rotation }) (fun p => rfl)]
    exact map_update_restore hnd hmem hpid _ rfl
  · dsimp only
    rw [List.dropLast_concat]
  · dsimp only
    rw [hgs]
    intro r' c'
    rfl

lemma remove_inverts (s : GameState) (k : Nat) (piece : GamePiece) (gridPos : Pos)
    (hnd : IdsNodup s) (hag : Agrees s)
    (hf : s.pieces.find? (fun p => p.id = k) = some piece)
    (hcgp : piece.currentGridPosition = some gridPos) :
    ObsEq (handleUndo (handleRemoveSelected s k)) s := by
  obtain ⟨hmem, hpid⟩ := find?_id_some_mem hf
  obtain ⟨hps, hhs, hgs⟩ := remove_effective s k piece gridPos hf hcgp
  have hndmap : ((handleRemoveSelected s k).pieces.map GamePiece.id).Nodup := by
    rw [hps, map_update_map_id (f := fun p => { p with currentGridPosition := none })
      (fun p => rfl)]
    exact hnd
  have hupdated : ({ piece with currentGridPosition := some gridPos } : GamePiece) = piece := by
    rw [← hcgp]
  unfold handleUndo
  rw [hhs, List.getLast?_concat]
  dsimp only
  rw [hps, find?_map_update (f := fun p => { p with currentGridPosition := none })
    (fun p => rfl), hf]
  simp only [Option.map_some']
  rw [if_pos hpid]
  dsimp only
  refine ⟨?_, ?_, ?_⟩
  · dsimp only
    rw [← hps, setFirstById_eq_map hndmap, hps,
      map_update_comp (fun p => { p with currentGridPosition := none })
        (fun _ => ({ piece with currentGridPosition := some gridPos } : GamePiece))
        (fun p => rfl)]
    exact map_update_restore hnd hmem hpid _ hupdated
  · dsimp only
    rw [List.dropLast_concat]
  · dsimp only
    rw [hgs]
    intro r' c'
    by_cases hb : r' = gridPos.row ∧ c' = gridPos.col
    · obtain ⟨h1, h2⟩ := hb
      subst h1
      subst h2
      rw [updateGrid_same]
      obtain ⟨q1, hq1g, hq1id⟩ := hag.2 piece hmem gridPos hcgp
      rw [hq1g]
      simp only [Option.map_some']
      rw [hq1id]
    · rw [updateGrid_ne _ _ _ _ _ _ hb, updateGrid_ne _ _ _ _ _ _ hb]

lemma drop_inverts (rows cols : Nat) (s : GameState) (k r c : Nat) (piece : GamePiece)
    (hnd : IdsNodup s) (hag : Agrees s)
    (hf : s.pieces.find? (fun p => p.id = k) = some piece)
    (hocc : s.puzzleGrid r c = none) :
    ObsEq (handleUndo (handleGridCellDrop rows cols s k r c)) s := by
  obtain ⟨hmem, hpid⟩ := find?_id_some_mem hf
  obtain ⟨hps, hhs, hgs⟩ := drop_effective rows cols s k r c piece hf hocc
  have hndmap : ((handleGridCellDrop rows cols s k r c).pieces.map GamePiece.id).Nodup := by
    rw [hps, map_update_map_id (f := fun p => { p with currentGridPosition := some ⟨r, c⟩ })
      (fun p => rfl)]
    exact hnd
  cases hcgp : piece.currentGridPosition with
  | none =>
    rw [hcgp] at hhs hgs
    dsimp only at hgs
    have hupdated : ({ piece with currentGridPosition := none } : GamePiece) = piece := by
      rw [← hcgp]
    unfold handleUndo
    rw [hhs, List.getLast?_concat]
    dsimp only
    rw [hps, find?_map_update (f := fun p => { p with currentGridPosition := some ⟨r, c⟩ })
      (fun p => rfl), hf]
    simp only [Option.map_some']
    rw [if_pos hpid]
    dsimp only
    refine ⟨?_, ?_, ?_⟩
    · dsimp only
      rw [← hps, setFirstById_eq_map hndmap, hps,
        map_update_comp (fun p => { p with currentGridPosition := some ⟨r, c⟩ })
          (fun _ => ({ piece with currentGridPosition := none } : GamePiece))
          (fun p => rfl)]
      exact map_update_restore hnd hmem hpid _ hupdated
    · dsimp only
      rw [List.dropLast_concat]
    · dsimp only
      rw [hgs]
      intro r' c'
      by_cases hb : r' = r ∧ c' = c
      · obtain ⟨h1, h2⟩ := hb
        subst h1
        subst h2
        rw [updateGrid_same, hocc]
      · rw [updateGrid_ne _ _ _ _ _ _ hb, updateGrid_ne _ _ _ _ _ _ hb]
  | some cp =>
    rw [hcgp] at hhs hgs
    dsimp only at hgs
    have hupdated : ({ piece with currentGridPosition := some cp } : GamePiece) = piece := by
      rw [← hcgp]
    obtain ⟨q1, hq1g, hq1id⟩ := hag.2 piece hmem cp hcgp
    have hcpne : ¬ (cp.row = r ∧ cp.col = c) := by
      intro hb
      rw [hb.1, hb.2, hocc] at hq1g
      exact Option.noConfusion hq1g
    unfold handleUndo
    rw [hhs, List.getLast?_concat]
    dsimp only
    rw [hps, find?_map_update (f := fun p => { p with currentGridPosition := some ⟨r, c⟩ })
      (fun p => rfl), hf]
    simp only [Option.map_some']
    rw [if_pos hpid]
    dsimp only
    refine ⟨?_, ?_, ?_⟩
    · dsimp only
      rw [← hps, setFirstById_eq_map hndmap, hps,
        map_update_comp (fun p => { p with currentGridPosition := some ⟨r, c⟩ })
          (fun _ => ({ piece with currentGridPosition := some cp } : GamePiece))
          (fun p => rfl)]
      exact map_update_restore hnd hmem hpid _ hupdated
    · dsimp only
      rw [List.dropLast_concat]
    · dsimp only
      rw [hgs]
      intro r' c'
      by_cases hb2 : r' = cp.row ∧ c' = cp.col
      · obtain ⟨h1, h2⟩ := hb2
        subst h1
        subst h2
        rw [updateGrid_same, hq1g]
        simp only [Option.map_some']
        rw [hq1id]
      · rw [updateGrid_ne _ _ _ _ _ _ hb2]
        by_cases hbrc : r' = r ∧ c' = c
        · obtain ⟨h1, h2⟩ := hbrc
          subst h1
          subst h2
          rw [updateGrid_same, hocc]
        · rw [updateGrid_ne _ _ _ _ _ _ hbrc, updateGrid_ne _ _ _ _ _ _ hbrc,
            updateGrid_ne _ _ _ _ _ _ hb2]

lemma applyOp_noop_or_inverts (rows cols : Nat) (op : Op) (s : GameState)
    (hnd : IdsNodup s) (hag : Agrees s) :
    ObsEq (applyOp rows cols s op) s ∨ ObsEq (handleUndo (applyOp rows cols s op)) s := by
  cases op with
  | place k r c =>
    simp only [applyOp]
    cases hf : s.pieces.find? (fun p => p.id = k) with
    | none =>
      left
      rw [drop_noop_unknown rows cols s k r c hf]
      exact ObsEq.refl s
    | some piece =>
      by_cases hocc : (s.puzzleGrid r c).isSome
      · left
        rw [drop_noop_occupied rows cols s k r c hocc]
        exact ObsEq.refl s
      · right
        have hoccn : s.puzzleGrid r c = none := by
          cases hgrc : s.puzzleGrid r c with
          | none => rfl
          | some q => rw [hgrc] at hocc; simp at hocc
        exact drop_inverts rows cols s k r c piece hnd hag hf hoccn
  | removeSel k =>
    simp only [applyOp]
    cases hf : s.pieces.find? (fun p => p.id = k) with
    | none =>
      left
      rw [remove_noop_unknown s k hf]
      exact ObsEq.refl s
    | some piece =>
      cases hcgp : piece.currentGridPosition with
      | none =>
        left
        rw [remove_noop_unplaced s k piece hf hcgp]
        exact ObsEq.refl s
      | some gridPos =>
        right
        exact remove_inverts s k piece gridPos hnd hag hf hcgp
  | rotateSel k =>
    simp only [applyOp]
    cases hf : s.pieces.find? (fun p => p.id = k) with
    | none =>
      left
      rw [rotate_noop s k hf]
      exact ⟨rfl, rfl, fun _ _ => rfl⟩
    | some piece =>
      right
      exact rotate_inverts s k piece hnd hf

lemma handleUndo_nil {s : GameState} (h : s.moveHistory = []) : handleUndo s = s := by
  simp [handleUndo, h]

lemma undoN_nil_history {s : GameState} (h : s.moveHistory = []) (n : Nat) :
    undoN n s = s := by
  induction n with
  | zero => rfl
  | succ m ih =>
    unfold undoN
    rw [handleUndo_nil h]
    exact ih

lemma applyOps_append (rows cols : Nat) (s : GameState) (ops : List Op) (op : Op) :
    applyOps rows cols s (ops ++ [op]) = applyOp rows cols (applyOps rows cols s ops) op := by
  unfold applyOps
  rw [List.foldl_append, List.foldl_cons, List.foldl_nil]

lemma applyOps_preserves (rows cols : Nat) (ops : List Op) :
    ∀ s : GameState, IdsNodup s → Agrees s →
      IdsNodup (applyOps rows cols s ops) ∧ Agrees (applyOps rows cols s ops) := by
  induction ops with
  | nil => exact fun s h1 h2 => ⟨h1, h2⟩
  | cons op rest ih =>
    intro s h1 h2
    unfold applyOps
    rw [List.foldl_cons]
    exact ih _ (idsNodup_applyOp rows cols s op h1) (agrees_applyOp rows cols s op h1 h2)

lemma undoN_applyOps_obsEq (rows cols : Nat) (ops : List Op) :
    ∀ n, ops.length ≤ n → ∀ s : GameState, s.moveHistory = [] → IdsNodup s → Agrees s →
      ObsEq (undoN n (applyOps rows cols s ops)) s := by
  induction ops using List.reverseRecOn with
  | nil =>
    intro n _ s hh _ _
    rw [show applyOps rows cols s [] = s from rfl, undoN_nil_history hh]
    exact ObsEq.refl s
  | append_singleton ops op ih =>
    intro n hlen s hh hnd hag
    rw [applyOps_append]
    have hlen2 : ops.length + 1 ≤ n := by simpa using hlen
    obtain ⟨hm1, hm2⟩ := applyOps_preserves rows cols ops s hnd hag
    rcases applyOp_noop_or_inverts rows cols op (applyOps rows cols s ops) hm1 hm2 with
      hno | hinv
    · exact (obsEq_undoN hno n).trans (ih n (by omega) s hh hnd hag)
    · obtain ⟨m, rfl⟩ : ∃ m, n = m + 1 := ⟨n - 1, by omega⟩
      exact (obsEq_undoN hinv m).trans (ih m (by omega) s hh hnd hag)

/-- Claim C4: starting from a fresh game (all pieces unplaced, empty grid,
empty move log, distinct piece ids), applying any sequence of place,
remove and rotate operations and then calling undo once per operation in
reverse order restores the initial state exactly: every piece regains its
initial (unplaced) `currentGridPosition` and initial rotation, and the
grid is empty again.  Operations that were silent no-ops (including a
place whose prior position was undefined being undone to the unplaced
pool) are handled without error: the surplus undos hit the empty log and
do nothing. -/
theorem c4_undo_reverses_all (rows cols : Nat) (ops : List Op) (s0 : GameState)
    (hhist : s0.moveHistory = [])
    (hnd : (s0.pieces.map GamePiece.id).Nodup)
    (hfresh : ∀ p ∈ s0.pieces, p.currentGridPosition = none)
    (hgrid : ∀ r c, s0.puzzleGrid r c = none) :
    (undoN ops.length (applyOps rows cols s0 ops)).pieces = s0.pieces ∧
    ∀ r c, (undoN ops.length (applyOps rows cols s0 ops)).puzzleGrid r c = none := by
  have hag : Agrees s0 := by
    constructor
    · intro r c q hq
      rw [hgrid r c] at hq
      exact Option.noConfusion hq
    · intro p hp x hx
      rw [hfresh p hp] at hx
      exact Option.noConfusion hx
  have hobs := undoN_applyOps_obsEq rows cols ops ops.length le_rfl s0 hhist hnd hag
  refine ⟨hobs.1, ?_⟩
  intro r c
  have hcell := hobs.2.2 r c
  rw [hgrid r c] at hcell
  simp only [Option.map_none'] at hcell
  exact Option.map_eq_none'.mp hcell

/-- Witness for C4 at a concrete input: the 1×1 game, one placement, one
undo; the piece is back in the pool and the grid is empty. -/
theorem c4_undo_reverses_all_witness :
    (undoN 1 (applyOps 1 1 soloStart [Op.place 0 0 0])).pieces = soloStart.pieces ∧
    ∀ r c, (undoN 1 (applyOps 1 1 soloStart [Op.place 0 0 0])).puzzleGrid r c = none := by
  have h := c4_undo_reverses_all 1 1 [Op.place 0 0 0] soloStart rfl
    (by decide) (by decide) (fun r c => rfl)
  exact h

/-- Reachability from a start state by any interleaving of place, remove
and rotate operations and presses of the undo button. -/
inductive Reachable (rows cols : Nat) (s0 : GameState) : GameState → Prop
  | refl : Reachable rows cols s0 s0
  | step : ∀ t op, Reachable rows cols s0 t → Reachable rows cols s0 (applyOp rows cols t op)
  | undo : ∀ t, Reachable rows cols s0 t → Reachable rows cols s0 (handleUndo t)

lemma opsReach_undo (rows cols : Nat) (s0 : GameState)
    (hh : s0.moveHistory = []) (hnd : IdsNodup s0) (hag : Agrees s0) (ops : List Op) :
    ∃ ops2, ObsEq (handleUndo (applyOps rows cols s0 ops)) (applyOps rows cols s0 ops2) := by
  induction ops using List.reverseRecOn with
  | nil =>
    refine ⟨[], ?_⟩
    rw [show applyOps rows cols s0 [] = s0 from rfl, handleUndo_nil hh]
    exact ObsEq.refl s0
  | append_singleton ops op ih =>
    obtain ⟨hm1, hm2⟩ := applyOps_preserves rows cols ops s0 hnd hag
    rw [applyOps_append]
    rcases applyOp_noop_or_inverts rows cols op (applyOps rows cols s0 ops) hm1 hm2 with
      hno | hinv
    · obtain ⟨ops2, hops2⟩ := ih
      exact ⟨ops2, (obsEq_undo hno).trans hops2⟩
    · exact ⟨ops, hinv⟩

lemma reachable_opsReach (rows cols : Nat) (s0 : GameState)
    (hh : s0.moveHistory = []) (hnd : IdsNodup s0) (hag : Agrees s0)
    (s : GameState) (hreach : Reachable rows cols s0 s) :
    ∃ ops, ObsEq s (applyOps rows cols s0 ops) := by
  induction hreach with
  | refl => exact ⟨[], ObsEq.refl s0⟩
  | step t op _ ih =>
    obtain ⟨ops, hops⟩ := ih
    refine ⟨ops ++ [op], ?_⟩
    rw [applyOps_append]
    exact obsEq_applyOp hops rows cols op
  | undo t _ ih =>
    obtain ⟨ops, hops⟩ := ih
    obtain ⟨ops2, hops2⟩ := opsReach_undo rows cols s0 hh hnd hag ops
    exact ⟨ops2, (obsEq_undo hops).trans hops2⟩

lemma agrees_of_obsEq {s t : GameState} (h : ObsEq s t) (hag : Agrees t) : Agrees s := by
  obtain ⟨hp, _, hg⟩ := h
  obtain ⟨hA1, hA2⟩ := hag
  constructor
  · intro r c q hq
    have hmap := hg r c
    rw [hq] at hmap
    cases hq2 : t.puzzleGrid r c with
    | none =>
      rw [hq2] at hmap
      simp at hmap
    | some q2 =>
      rw [hq2] at hmap
      simp only [Option.map_some'] at hmap
      obtain ⟨p, hpmem, hpid, hppos⟩ := hA1 r c q2 hq2
      refine ⟨p, ?_, ?_, hppos⟩
      · rw [hp]; exact hpmem
      · exact hpid.trans (Option.some.inj hmap).symm
  · intro p hpmem x hx
    obtain ⟨q, hq, hqid⟩ := hA2 p (by rw [← hp]; exact hpmem) x hx
    have hmap := hg x.row x.col
    rw [hq] at hmap
    cases hq2 : s.puzzleGrid x.row x.col with
    | none =>
      rw [hq2] at hmap
      simp at hmap
    | some q2 =>
      rw [hq2] at hmap
      simp only [Option.map_some'] at hmap
      exact ⟨q2, rfl, (Option.some.inj hmap).trans hqid⟩

/-- Claim C5: in every state reachable from a fresh game (distinct piece
ids, all pieces unplaced, empty grid, empty move log) by any sequence of
place, remove, rotate and undo operations, the piece ids stay distinct,
every occupied cell stores an object whose id belongs to a live piece
whose `currentGridPosition` is exactly that cell, every placed piece's
cell is occupied by an object carrying its id, and a given piece id
occupies at most one grid cell (each cell holds at most one piece because
the grid is a single-valued map). -/
theorem c5_reachable_agreement (rows cols : Nat) (s0 s : GameState)
    (hhist : s0.moveHistory = [])
    (hnd : (s0.pieces.map GamePiece.id).Nodup)
    (hfresh : ∀ p ∈ s0.pieces, p.currentGridPosition = none)
    (hgrid : ∀ r c, s0.puzzleGrid r c = none)
    (hreach : Reachable rows cols s0 s) :
    ((s.pieces.map GamePiece.id).Nodup) ∧
    (∀ r c q, s.puzzleGrid r c = some q →
      ∃ p ∈ s.pieces, p.id = q.id ∧ p.currentGridPosition = some ⟨r, c⟩) ∧
    (∀ p ∈ s.pieces, ∀ x : Pos, p.currentGridPosition = some x →
      ∃ q, s.puzzleGrid x.row x.col = some q ∧ q.id = p.id) ∧
    (∀ r c r2 c2 q q2, s.puzzleGrid r c = some q → s.puzzleGrid r2 c2 = some q2 →
      q.id = q2.id → r = r2 ∧ c = c2) := by
  have hag0 : Agrees s0 := by
    constructor
    · intro r c q hq
      rw [hgrid r c] at hq
      exact Option.noConfusion hq
    · intro p hp x hx
      rw [hfresh p hp] at hx
      exact Option.noConfusion hx
  obtain ⟨ops, hops⟩ := reachable_opsReach rows cols s0 hhist hnd hag0 s hreach
  obtain ⟨hnd2, hag2⟩ := applyOps_preserves rows cols ops s0 hnd hag0
  have hagS : Agrees s := agrees_of_obsEq hops hag2
  have hndS : (s.pieces.map GamePiece.id).Nodup := by
    rw [hops.1]
    exact hnd2
  refine ⟨hndS, hagS.1, hagS.2, ?_⟩
  intro r c r2 c2 q q2 hq hq2 hid
  obtain ⟨p, hpmem, hpid, hppos⟩ := hagS.1 r c q hq
  obtain ⟨p2, hp2mem, hp2id, hp2pos⟩ := hagS.1 r2 c2 q2 hq2
  have hpp2 : p = p2 := unique_by_id hndS hpmem hp2mem (by rw [hpid, hp2id, hid])
  rw [hpp2, hp2pos] at hppos
  have := Option.some.inj hppos
  constructor
  · exact (congrArg Pos.row this).symm
  · exact (congrArg Pos.col this).symm

/-- Witness for C5 at a concrete input: the 1×1 game after one valid
placement reached by a single step. -/
theorem c5_reachable_agreement_witness :
    (((applyOp 1 1 soloStart (Op.place 0 0 0)).pieces.map GamePiece.id).Nodup) ∧
    (∀ r c q, (applyOp 1 1 soloStart (Op.place 0 0 0)).puzzleGrid r c = some q →
      ∃ p ∈ (applyOp 1 1 soloStart (Op.place 0 0 0)).pieces,
        p.id = q.id ∧ p.currentGridPosition = some ⟨r, c⟩) ∧
    (∀ p ∈ (applyOp 1 1 soloStart (Op.place 0 0 0)).pieces, ∀ x : Pos,
      p.currentGridPosition = some x →
      ∃ q, (applyOp 1 1 soloStart (Op.place 0 0 0)).puzzleGrid x.row x.col = some q ∧
        q.id = p.id) ∧
    (∀ r c r2 c2 q q2, (applyOp 1 1 soloStart (Op.place 0 0 0)).puzzleGrid r c = some q →
      (applyOp 1 1 soloStart (Op.place 0 0 0)).puzzleGrid r2 c2 = some q2 →
      q.id = q2.id → r = r2 ∧ c = c2) :=
  c5_reachable_agreement 1 1 soloStart (applyOp 1 1 soloStart (Op.place 0 0 0)) rfl
    (by decide) (by decide) (fun r c => rfl)
    (Reachable.step soloStart (Op.place 0 0 0) Reachable.refl)
